import Mathlib

/-!
# Flash HAL of the SPIFFS port: `extras/spiffs/esp_spiffs.c`

A shallow embedding of `esp_spiffs_read`, `esp_spiffs_write` and
`esp_spiffs_erase`, the three callbacks that translate byte-granular
requests into word-aligned SPI-flash operations, and of `_write_r`, the
`write` system call that sends the standard output to the UART.

Conventions of the embedding.

* `uint32_t` values and pointers (the target is a 32-bit machine) are `Nat`
  with explicit reduction modulo `2 ^ 32` (`add32`, `sub32`).
* A byte is a `Fin 256`.
* RAM is a function from 32-bit addresses to bytes; a `u8_t *` is an address.
* The SPI flash is a `Device`: its byte contents, an oracle that says which
  device calls fail, and the log of the device calls issued so far.
* Local variables (`tmp`, `buf`) are values, not RAM cells.  The one place
  where the source reads outside a local (`&tmp + 4 - nb` in
  `esp_spiffs_read`) takes the bytes that follow `tmp` on the stack as an
  explicit argument.
-/

namespace EspSpiffs

/-! ## Machine arithmetic -/

abbrev Byte := Fin 256

/-- Addition of two `uint32_t` values (or of a pointer and an offset). -/
def add32 (a b : Nat) : Nat := (a + b) % 4294967296

/-- Subtraction of two `uint32_t` values, wrapping below zero. -/
def sub32 (a b : Nat) : Nat := (a + (4294967296 - b % 4294967296)) % 4294967296

/-- The constant `~3` once converted to `uint32_t`, i.e. `0xFFFFFFFC`. -/
def NOT3 : Nat := 4294967292

/-! ## Constants of the headers -/

/-- Modelled from the spec: `SPIFFS_OK` of `spiffs.h` (the header is not among
the sources), the success value returned to the filesystem library. -/
def SPIFFS_OK : Int := 0

/-- Modelled from the spec: `SPIFFS_ERR_INTERNAL` of `spiffs.h` (the header is
not among the sources), the value that reports the `DeviceIoError` of the
spec; it differs from `SPIFFS_OK`. -/
def SPIFFS_ERR_INTERNAL : Int := -10050

/-- Modelled from the spec: `SPI_FLASH_SEC_SIZE` of `espressif/spi_flash.h`
(the header is not among the sources), the sector size, 4096 bytes. -/
def SPI_FLASH_SEC_SIZE : Nat := 4096

/-- The constant `UNALIGNED_WRITE_BUFFER_SIZE` (line 66), the value of `sizeof(buf)`. -/
def UNALIGNED_WRITE_BUFFER_SIZE : Nat := 512

/-! ## The device primitives -/

/-- One call of a device primitive, with the arguments that reach the device.
For a write the bytes handed over are recorded (their number is the `size`
argument of the call). -/
inductive DevCall where
  | read (addr len : Nat)
  | write (addr : Nat) (data : List Byte)
  | erase (sector : Nat)
  deriving DecidableEq, Repr

/-- A logged device call and whether it succeeded. -/
structure LogEntry where
  call : DevCall
  ok : Bool
  deriving DecidableEq, Repr

/-- The SPI flash seen from the HAL: `flash a` is the byte at flash address
`a`; `fails k` tells whether the `k`-th device call (counted from 0 over the
life of the device) fails; `log` lists the calls issued so far, oldest
first. -/
structure Device where
  flash : Nat → Byte
  fails : Nat → Bool
  log : List LogEntry

/-- Modelled from the spec: `sdk_spi_flash_read` of the SDK (declared in
`espressif/spi_flash.h`, not among the sources):
`device_read(word_address, byte_count) -> byte_sequence | Error`.  On success
the result is the function giving the `i`-th byte read; a failing call
delivers nothing. -/
def sdk_spi_flash_read (d : Device) (addr len : Nat) : Device × Option (Nat → Byte) :=
  if d.fails d.log.length then
    ({ d with log := d.log ++ [⟨DevCall.read addr len, false⟩] }, none)
  else
    ({ d with log := d.log ++ [⟨DevCall.read addr len, true⟩] },
      some (fun i => d.flash (addr + i)))

/-- The flash contents after programming `len` bytes `data 0, data 1, ...` at
`addr`: a program operation can only clear bits, new = old AND written. -/
def program (flash : Nat → Byte) (addr : Nat) (data : Nat → Byte) (len : Nat) : Nat → Byte :=
  fun a => if addr ≤ a ∧ a < addr + len then flash a &&& data (a - addr) else flash a

/-- Modelled from the spec: `sdk_spi_flash_write` of the SDK (declared in
`espressif/spi_flash.h`, not among the sources):
`device_write(word_address, byte_count, source) -> Ok | Error`, a program
operation that can only change bits from 1 to 0.  A failing call leaves the
flash as it was. -/
def sdk_spi_flash_write (d : Device) (addr : Nat) (data : Nat → Byte) (len : Nat) :
    Device × Bool :=
  if d.fails d.log.length then
    ({ d with log := d.log ++ [⟨DevCall.write addr ((List.range len).map data), false⟩] }, false)
  else
    ({ d with
        flash := program d.flash addr data len
        log := d.log ++ [⟨DevCall.write addr ((List.range len).map data), true⟩] }, true)

/-- Modelled from the spec: `sdk_spi_flash_erase_sector` of the SDK (declared
in `espressif/spi_flash.h`, not among the sources):
`device_erase_sector(sector_index) -> Ok | Error`, erases one physical sector
to all-1 bits.  A failing call leaves the flash as it was. -/
def sdk_spi_flash_erase_sector (d : Device) (sector : Nat) : Device × Bool :=
  if d.fails d.log.length then
    ({ d with log := d.log ++ [⟨DevCall.erase sector, false⟩] }, false)
  else
    ({ d with
        flash := fun a => if a / SPI_FLASH_SEC_SIZE = sector then 255 else d.flash a
        log := d.log ++ [⟨DevCall.erase sector, true⟩] }, true)

/-! ## `memcpy` -/

/-- RAM after `memcpy(dstp, s, n)` where `s k` is the `k`-th source byte:
the `n` bytes at addresses `dstp, dstp + 1, ...` (32-bit pointer arithmetic)
are replaced. -/
def memcpy (ram : Nat → Byte) (dstp : Nat) (s : Nat → Byte) (n : Nat) : Nat → Byte :=
  fun a => if sub32 a dstp < n then s (sub32 a dstp) else ram a

/-- The bytes of RAM that start at pointer `p`: `k ↦ *(p + k)`. -/
def bytesAt (ram : Nat → Byte) (p : Nat) : Nat → Byte :=
  fun k => ram (add32 p k)

/-- A local byte array after `memcpy(arr + off, s, n)`. -/
def memcpyLocal (arr : Nat → Byte) (off : Nat) (s : Nat → Byte) (n : Nat) : Nat → Byte :=
  fun k => if off ≤ k ∧ k < off + n then s (k - off) else arr k

/-! ## `esp_spiffs_read` (lines 24-64) -/

/-- The window computed at the top of `esp_spiffs_read` and `esp_spiffs_write`
(lines 27-31 and 70-74): `alignedBegin = (addr + 3) & ~3`. -/
def alignedBegin (addr : Nat) : Nat := add32 addr 3 &&& NOT3

/-- Lines 28-31 and 71-74: `alignedEnd = (addr + size) & ~3`, raised to
`alignedBegin` when it lies below it. -/
def alignedEnd (addr size : Nat) : Nat :=
  if add32 addr size &&& NOT3 < alignedBegin addr then alignedBegin addr
  else add32 addr size &&& NOT3

/-- Lines 33-41, the leading step of `esp_spiffs_read`.  The word is fetched
from `alignedEnd - 4`.  `tmp` is a `uint32_t`, so `&tmp + 4 - nb` is the
address `4 * (4 - nb)` bytes after `&tmp`; the bytes of the stack from `&tmp`
on are the four bytes of `tmp` followed by `stk 4, stk 5, ...`.  The result
is the success flag, the RAM and the device. -/
def readLeading (d : Device) (addr size dst : Nat) (ram stk : Nat → Byte) :
    Bool × (Nat → Byte) × Device :=
  if addr < alignedBegin addr then
    let nb := sub32 (alignedBegin addr) addr
    let r := sdk_spi_flash_read d (sub32 (alignedEnd addr size) 4) 4
    match r.2 with
    | none => (false, ram, r.1)
    | some tmp =>
      let frame : Nat → Byte := fun k => if k < 4 then tmp k else stk k
      (true, memcpy ram dst (fun i => frame (add32 (sub32 (4 * 4) (4 * nb % 4294967296)) i)) nb,
        r.1)
  else (true, ram, d)

/-- Lines 43-50, the bulk read of the aligned interior straight into
`dst + alignedBegin - addr`. -/
def readInterior (d : Device) (addr size dst : Nat) (ram : Nat → Byte) :
    Bool × (Nat → Byte) × Device :=
  if alignedEnd addr size ≠ alignedBegin addr then
    let r := sdk_spi_flash_read d (alignedBegin addr)
      (sub32 (alignedEnd addr size) (alignedBegin addr))
    match r.2 with
    | none => (false, ram, r.1)
    | some w =>
      (true, memcpy ram (sub32 (add32 dst (alignedBegin addr)) addr) w
        (sub32 (alignedEnd addr size) (alignedBegin addr)), r.1)
  else (true, ram, d)

/-- Lines 52-61, the trailing step of `esp_spiffs_read`. -/
def readTrailing (d : Device) (addr size dst : Nat) (ram : Nat → Byte) :
    Bool × (Nat → Byte) × Device :=
  if add32 addr size > alignedEnd addr size then
    let nb := sub32 (add32 addr size) (alignedEnd addr size)
    let r := sdk_spi_flash_read d (alignedEnd addr size) 4
    match r.2 with
    | none => (false, ram, r.1)
    | some tmp => (true, memcpy ram (sub32 (add32 dst size) nb) tmp nb, r.1)
  else (true, ram, d)

/-- The function `esp_spiffs_read(addr, size, dst)`: the result code, the RAM
afterwards and the device afterwards.  `stk` gives the stack bytes that
follow the local `tmp` of the leading step. -/
def esp_spiffs_read (d : Device) (addr size dst : Nat) (ram stk : Nat → Byte) :
    Int × (Nat → Byte) × Device :=
  let s1 := readLeading d addr size dst ram stk
  if s1.1 = false then (SPIFFS_ERR_INTERNAL, s1.2.1, s1.2.2) else
  let s2 := readInterior s1.2.2 addr size dst s1.2.1
  if s2.1 = false then (SPIFFS_ERR_INTERNAL, s2.2.1, s2.2.2) else
  let s3 := readTrailing s2.2.2 addr size dst s2.2.1
  if s3.1 = false then (SPIFFS_ERR_INTERNAL, s3.2.1, s3.2.2) else
  (SPIFFS_OK, s3.2.1, s3.2.2)

/-! ## `esp_spiffs_write` (lines 68-129) -/

/-- Lines 76-86, the leading step of `esp_spiffs_write`: a word of `0xff`
bytes overlaid with the first `nb` source bytes at `tmp + 4 - ofs`, written
at `alignedBegin - 4`. -/
def writeLeading (d : Device) (addr size src : Nat) (ram : Nat → Byte) : Bool × Device :=
  if addr < alignedBegin addr then
    let ofs := sub32 (alignedBegin addr) addr
    let nb := if size < ofs then size else ofs
    let tmp := memcpyLocal (fun _ => 255) (sub32 4 ofs) (bytesAt ram src) nb
    let r := sdk_spi_flash_write d (sub32 (alignedBegin addr) 4) tmp 4
    (r.2, r.1)
  else (true, d)

/-- Line 101: `willCopy = sizeLeft < sizeof(buf) ? sizeLeft : sizeof(buf)`. -/
def willCopy (sizeLeft : Nat) : Nat :=
  if sizeLeft < UNALIGNED_WRITE_BUFFER_SIZE then sizeLeft else UNALIGNED_WRITE_BUFFER_SIZE

/-- Lines 100-113, the staging loop.  `srcLeftover` is a `uint32_t *`, so
`srcLeftover += willCopy` moves it by `4 * willCopy` bytes.  The first
argument bounds the number of iterations; `sizeLeft` iterations always
suffice, as `sizeLeft` drops by `willCopy >= 1` in each. -/
def stagingLoop (ram : Nat → Byte) : Nat → Nat → Nat → Nat → Device → Bool × Device
  | 0, _, _, _, d => (true, d)
  | fuel + 1, sizeLeft, srcLeftover, aBegin, d =>
    if sizeLeft = 0 then (true, d) else
    let buf := bytesAt ram srcLeftover
    let r := sdk_spi_flash_write d aBegin buf (willCopy sizeLeft)
    if r.2 = false then (false, r.1) else
    stagingLoop ram fuel (sub32 sizeLeft (willCopy sizeLeft))
      (add32 srcLeftover (4 * willCopy sizeLeft)) (add32 aBegin (willCopy sizeLeft)) r.1

/-- Lines 88-115, the aligned interior of `esp_spiffs_write`: one bulk write
when `srcLeftover = src + alignedBegin - addr` is word-aligned, the staging
loop otherwise. -/
def writeInterior (d : Device) (addr size src : Nat) (ram : Nat → Byte) : Bool × Device :=
  if alignedEnd addr size ≠ alignedBegin addr then
    let srcLeftover := sub32 (add32 src (alignedBegin addr)) addr
    let srcAlign := srcLeftover &&& 3
    if srcAlign = 0 then
      let r := sdk_spi_flash_write d (alignedBegin addr) (bytesAt ram srcLeftover)
        (sub32 (alignedEnd addr size) (alignedBegin addr))
      (r.2, r.1)
    else
      stagingLoop ram (sub32 (alignedEnd addr size) (alignedBegin addr))
        (sub32 (alignedEnd addr size) (alignedBegin addr)) srcLeftover (alignedBegin addr) d
  else (true, d)

/-- Lines 117-126, the trailing step of `esp_spiffs_write`: `tmp = 0xffffffff`
overlaid with the last `nb` source bytes, written at `alignedEnd`. -/
def writeTrailing (d : Device) (addr size src : Nat) (ram : Nat → Byte) : Bool × Device :=
  if add32 addr size > alignedEnd addr size then
    let nb := sub32 (add32 addr size) (alignedEnd addr size)
    let tmp := memcpyLocal (fun _ => 255) 0 (bytesAt ram (sub32 (add32 src size) nb)) nb
    let r := sdk_spi_flash_write d (alignedEnd addr size) tmp 4
    (r.2, r.1)
  else (true, d)

/-- The function `esp_spiffs_write(addr, size, src)`: the result code and the
device afterwards.  `src` is the source pointer, `ram` the RAM it points
into. -/
def esp_spiffs_write (d : Device) (addr size src : Nat) (ram : Nat → Byte) : Int × Device :=
  let s1 := writeLeading d addr size src ram
  if s1.1 = false then (SPIFFS_ERR_INTERNAL, s1.2) else
  let s2 := writeInterior s1.2 addr size src ram
  if s2.1 = false then (SPIFFS_ERR_INTERNAL, s2.2) else
  let s3 := writeTrailing s2.2 addr size src ram
  if s3.1 = false then (SPIFFS_ERR_INTERNAL, s3.2) else
  (SPIFFS_OK, s3.2)

/-! ## `esp_spiffs_erase` (lines 131-147) -/

/-- Lines 143-145: `for (i = 0; i < sectorCount; ++i)
sdk_spi_flash_erase_sector(sector + i);` — the result of the device call is
dropped. -/
def eraseLoop (sector sectorCount : Nat) (d : Device) : Device :=
  (List.range sectorCount).foldl
    (fun dev i => (sdk_spi_flash_erase_sector dev (add32 sector i)).1) d

/-- The function `esp_spiffs_erase(addr, size)`: the result code and the
device afterwards (the two `printf` diagnostics have no effect on either). -/
def esp_spiffs_erase (d : Device) (addr size : Nat) : Int × Device :=
  (SPIFFS_OK, eraseLoop (addr / SPI_FLASH_SEC_SIZE) (size / SPI_FLASH_SEC_SIZE) d)

/-! ## Devices and buffers used in the scenarios -/

/-- An erased flash on which every device call succeeds, nothing logged yet. -/
def erasedDevice : Device := ⟨fun _ => 255, fun _ => false, []⟩

/-- A flash on which every device call fails. -/
def failingDevice : Device := ⟨fun _ => 0, fun _ => true, []⟩

/-- RAM filled with zero bytes. -/
def zeroRam : Nat → Byte := fun _ => 0

/-! ## Replaying a log -/

/-- The effect of one logged device call on the flash contents: a successful
write programs its bytes, a successful sector erase sets its sector to `0xFF`,
a read or a failed call changes nothing. -/
def applyEntry (f : Nat → Byte) (e : LogEntry) : Nat → Byte :=
  if e.ok then
    match e.call with
    | DevCall.write addr data => program f addr (fun i => data.getD i 255) data.length
    | DevCall.erase s => fun a => if a / SPI_FLASH_SEC_SIZE = s then 255 else f a
    | DevCall.read _ _ => f
  else f

/-- The flash contents after the logged calls `l`, oldest first. -/
def replay (l : List LogEntry) (f : Nat → Byte) : Nat → Byte := l.foldl applyEntry f

/-- What it means that an invocation that started on device `d`, ended on
device `e` and reported `ok` has propagated device errors: the calls `calls`
it issued are appended to the log; the `k`-th of them failed exactly when the
failure oracle says so; every call but the last succeeded; the invocation
reports success exactly when all its calls succeeded; and the flash holds the
effect of the calls that succeeded, in order. -/
def Propagates (d : Device) (ok : Bool) (e : Device) (calls : List LogEntry) : Prop :=
  e.log = d.log ++ calls ∧
  e.fails = d.fails ∧
  (∀ k, k < calls.length → (calls.map LogEntry.ok).getD k true = !d.fails (d.log.length + k)) ∧
  (∀ x ∈ calls.dropLast, x.ok = true) ∧
  (ok = true ↔ ∀ x ∈ calls, x.ok = true) ∧
  e.flash = replay calls d.flash

/-- Error propagation of a whole invocation that started on device `d`,
returned `code` and ended on device `e`: there is a list `calls` of device
calls, appended to the log, such that the `k`-th failed exactly when the
failure oracle says so, every call but the last succeeded, the code is
`SPIFFS_ERR_INTERNAL` exactly when some call failed and `SPIFFS_OK` exactly
when none did, and the flash holds the effect of the successful calls. -/
def ErrorsPropagated (d : Device) (code : Int) (e : Device) : Prop :=
  ∃ calls : List LogEntry,
    e.log = d.log ++ calls ∧
    (∀ k, k < calls.length →
      (calls.map LogEntry.ok).getD k true = !d.fails (d.log.length + k)) ∧
    (∀ x ∈ calls.dropLast, x.ok = true) ∧
    (code = SPIFFS_ERR_INTERNAL ↔ ∃ x ∈ calls, x.ok = false) ∧
    (code = SPIFFS_OK ↔ ∀ x ∈ calls, x.ok = true) ∧
    e.flash = replay calls d.flash

/-- RAM of Scenario A: the four bytes `AA BB CC DD` at address 2000. -/
def scenarioARam : Nat → Byte := fun a =>
  if a = 2000 then 0xAA else if a = 2001 then 0xBB else if a = 2002 then 0xCC
  else if a = 2003 then 0xDD else 0

/-- Flash of Scenario B: bytes 0..7 are `01 02 03 04 05 06 07 08`, the rest is
erased. -/
def scenarioBFlash : Nat → Byte := fun a =>
  match a with
  | 0 => 1 | 1 => 2 | 2 => 3 | 3 => 4 | 4 => 5 | 5 => 6 | 6 => 7 | 7 => 8
  | _ => 255

/-- Device of Scenario B, every call succeeding. -/
def scenarioBDevice : Device := ⟨scenarioBFlash, fun _ => false, []⟩

/-- RAM with the six bytes `11 22 33 44 55 66` at address 2000. -/
def sixBytesRam : Nat → Byte := fun a =>
  if a = 2000 then 0x11 else if a = 2001 then 0x22 else if a = 2002 then 0x33
  else if a = 2003 then 0x44 else if a = 2004 then 0x55 else if a = 2005 then 0x66 else 0

/-- RAM with two copies of the same 516 bytes `AA AA ...`: one at the
unaligned address 2001, one at the word-aligned address 3000; every other
byte is 0. -/
def stagingRam : Nat → Byte := fun a =>
  if (2001 ≤ a ∧ a < 2517) ∨ (3000 ≤ a ∧ a < 3516) then 0xAA else 0

/-- RAM with the 519 bytes `AA AA ...` at the word-aligned address 2000; every
other byte is 0. -/
def alignedSourceRam : Nat → Byte := fun a =>
  if 2000 ≤ a ∧ a < 2519 then 0xAA else 0

/-! ## Device calls of one invocation -/

/-- The device calls issued between the device states `d` and `e`, where `e`
is reached from `d`: the entries of the log of `e` that follow those of
`d`. -/
def issued (d e : Device) : List LogEntry := e.log.drop d.log.length

/-- The precondition of the device read and write primitives on a call: a
flash address that is a multiple of 4 and a byte count that is a non-zero
multiple of 4. -/
def wordGranular : DevCall → Prop
  | DevCall.read a len => a % 4 = 0 ∧ len % 4 = 0 ∧ 0 < len
  | DevCall.write a data => a % 4 = 0 ∧ data.length % 4 = 0 ∧ 0 < data.length
  | DevCall.erase _ => True

/-- The flash address and the byte count of a device write. -/
def writeSpan : DevCall → Option (Nat × Nat)
  | DevCall.write a data => some (a, data.length)
  | _ => none

/-- A device on which exactly the first call fails. -/
def firstCallFails : Device := ⟨fun _ => 0, fun k => k == 0, []⟩

/-- Every device call issued between the device states `d` and `e` satisfies
`P`. -/
def CallsSatisfy (P : DevCall → Prop) (d e : Device) : Prop :=
  ∃ l : List LogEntry, e.log = d.log ++ l ∧ ∀ x ∈ l, P x.call

/-- The log entry of the `k`-th pass (0-based) of a staging loop entered with
`sizeLeft` bytes left, the source pointer `srcLeftover` and the flash address
`aBegin`, when the device write succeeds: `min 512 (sizeLeft - 512 * k)`
bytes, taken from `srcLeftover + 4 * 512 * k`, written at
`aBegin + 512 * k`. -/
def stagingChunk (ram : Nat → Byte) (sizeLeft srcLeftover aBegin k : Nat) : LogEntry :=
  ⟨DevCall.write (aBegin + 512 * k)
    ((List.range (min 512 (sizeLeft - 512 * k))).map
      (bytesAt ram (add32 srcLeftover (2048 * k)))), true⟩

/-! ## `_write_r` (lines 190-205) -/

/-- The byte `'\r'`. -/
def CR : Byte := 13

/-- The byte `'\n'`. -/
def LF : Byte := 10

/-- Modelled from the spec: `uart_putc` of `esp/uart.h` (the header is not
among the sources) sends one byte to the UART; the bytes sent so far are kept
as a list, oldest first. -/
def uart_putc (uart : List Byte) (c : Byte) : List Byte := uart ++ [c]

/-- Lines 197-202, the body of the loop of `_write_r` for the byte `c`. -/
def putTranslated (uart : List Byte) (c : Byte) : List Byte :=
  if c = CR then uart
  else if c = LF then uart_putc (uart_putc uart CR) c
  else uart_putc uart c

/-- The function `_write_r(r, fd, ptr, len)`: the result and the bytes sent to
the UART.  `stdoutFile` is `r->_stdout->_file`; `SPIFFS_write` (of the SPIFFS
library, not among the sources) is an argument; `ptr i` is the byte
`ptr[i]`. -/
def _write_r (stdoutFile : Int) (SPIFFS_write : Int → (Nat → Byte) → Int → Int) (fd : Int)
    (ptr : Nat → Byte) (len : Int) (uart : List Byte) : Int × List Byte :=
  if fd ≠ stdoutFile then (SPIFFS_write fd ptr len, uart)
  else (len, (List.range len.toNat).foldl (fun u i => putTranslated u (ptr i)) uart)

/-- The four bytes `'a' '\r' 'b' '\n'`. -/
def crlfSample : Nat → Byte := fun i =>
  match i with
  | 0 => 97 | 1 => 13 | 2 => 98 | 3 => 10
  | _ => 0

/-! # Theorems -/

/-! ## Arithmetic of the word window -/

theorem and_NOT3 (x : Nat) (h : x < 4294967296) : x &&& NOT3 = x - x % 4 := by
  have h1 : NOT3 = 2 ^ 2 * (2 ^ 30 - 1) := by norm_num [NOT3]
  have h2 : x - x % 4 = 2 ^ 2 * (x >>> 2) := by
    rw [Nat.shiftRight_eq_div_pow]; omega
  rw [h2, h1]
  apply Nat.eq_of_testBit_eq
  intro i
  rw [Nat.testBit_and, Nat.testBit_mul_pow_two, Nat.testBit_mul_pow_two,
    Nat.testBit_two_pow_sub_one, Nat.testBit_shiftRight]
  by_cases h3 : 2 ≤ i
  · have h4 : 2 + (i - 2) = i := by omega
    simp only [h4, ge_iff_le, h3, decide_True, Bool.true_and]
    by_cases h5 : i - 2 < 30
    · simp [h5]
    · have h6 : 32 ≤ i := by omega
      have h7 : x < 2 ^ i :=
        lt_of_lt_of_le h (by
          calc 4294967296 = 2 ^ 32 := by norm_num
            _ ≤ 2 ^ i := Nat.pow_le_pow_right (by norm_num) h6)
      simp [h5, Nat.testBit_lt_two_pow h7]
  · simp [h3]

theorem and_three (x : Nat) : x &&& 3 = x % 4 := by
  have h := Nat.and_pow_two_sub_one_eq_mod x 2
  norm_num at h
  exact h

theorem alignedBegin_eq (addr : Nat) :
    alignedBegin addr = (addr + 3) % 4294967296 - (addr + 3) % 4294967296 % 4 := by
  unfold alignedBegin add32
  exact and_NOT3 _ (Nat.mod_lt _ (by norm_num))

theorem alignedEnd_eq (addr size : Nat) :
    alignedEnd addr size =
      if (addr + size) % 4294967296 - (addr + size) % 4294967296 % 4 <
          (addr + 3) % 4294967296 - (addr + 3) % 4294967296 % 4 then
        (addr + 3) % 4294967296 - (addr + 3) % 4294967296 % 4
      else (addr + size) % 4294967296 - (addr + size) % 4294967296 % 4 := by
  unfold alignedEnd
  rw [alignedBegin_eq]
  unfold add32
  rw [and_NOT3 _ (Nat.mod_lt _ (by norm_num))]

/-- The window of a request whose start does not wrap when rounded up. -/
theorem window_nowrap (addr size : Nat) (h3 : addr + 3 < 4294967296)
    (hs : addr + size < 4294967296) :
    alignedBegin addr = addr + 3 - (addr + 3) % 4 ∧
    alignedEnd addr size =
      (if addr + size - (addr + size) % 4 < addr + 3 - (addr + 3) % 4
        then addr + 3 - (addr + 3) % 4 else addr + size - (addr + size) % 4) := by
  rw [alignedBegin_eq, alignedEnd_eq, Nat.mod_eq_of_lt h3, Nat.mod_eq_of_lt hs]
  exact ⟨rfl, rfl⟩

theorem ff_and (x : Byte) : (255 : Byte) &&& x = x := by
  apply Fin.ext
  show (255 &&& x.val) % 256 = x.val
  have h := Nat.and_pow_two_sub_one_eq_mod x.val 8
  have h2 := x.isLt
  norm_num at h
  rw [Nat.and_comm, h]; omega

theorem and_ff (x : Byte) : x &&& (255 : Byte) = x := by
  apply Fin.ext
  show (x.val &&& 255) % 256 = x.val
  have h := Nat.and_pow_two_sub_one_eq_mod x.val 8
  have h2 := x.isLt
  norm_num at h
  rw [h]; omega

/-! ## The device primitives: effect on the state -/

theorem read_fails (d : Device) (addr len : Nat) :
    (sdk_spi_flash_read d addr len).1.fails = d.fails := by
  unfold sdk_spi_flash_read; split <;> rfl

theorem read_flash (d : Device) (addr len : Nat) :
    (sdk_spi_flash_read d addr len).1.flash = d.flash := by
  unfold sdk_spi_flash_read; split <;> rfl

theorem read_log (d : Device) (addr len : Nat) :
    (sdk_spi_flash_read d addr len).1.log =
      d.log ++ [⟨DevCall.read addr len, !d.fails d.log.length⟩] := by
  unfold sdk_spi_flash_read; split <;> simp_all

theorem read_data (d : Device) (addr len : Nat) :
    (sdk_spi_flash_read d addr len).2 =
      if d.fails d.log.length then none else some (fun i => d.flash (addr + i)) := by
  unfold sdk_spi_flash_read; split <;> rfl

theorem write_fails (d : Device) (addr : Nat) (data : Nat → Byte) (len : Nat) :
    (sdk_spi_flash_write d addr data len).1.fails = d.fails := by
  unfold sdk_spi_flash_write; split <;> rfl

theorem write_ok (d : Device) (addr : Nat) (data : Nat → Byte) (len : Nat) :
    (sdk_spi_flash_write d addr data len).2 = !d.fails d.log.length := by
  unfold sdk_spi_flash_write; split <;> simp_all

theorem write_flash (d : Device) (addr : Nat) (data : Nat → Byte) (len : Nat) :
    (sdk_spi_flash_write d addr data len).1.flash =
      if d.fails d.log.length then d.flash else program d.flash addr data len := by
  unfold sdk_spi_flash_write; split <;> rfl

theorem write_log (d : Device) (addr : Nat) (data : Nat → Byte) (len : Nat) :
    (sdk_spi_flash_write d addr data len).1.log =
      d.log ++ [⟨DevCall.write addr ((List.range len).map data), !d.fails d.log.length⟩] := by
  unfold sdk_spi_flash_write; split <;> simp_all

theorem erase_fails (d : Device) (s : Nat) :
    (sdk_spi_flash_erase_sector d s).1.fails = d.fails := by
  unfold sdk_spi_flash_erase_sector; split <;> rfl

theorem erase_log (d : Device) (s : Nat) :
    (sdk_spi_flash_erase_sector d s).1.log =
      d.log ++ [⟨DevCall.erase s, !d.fails d.log.length⟩] := by
  unfold sdk_spi_flash_erase_sector; split <;> simp_all

theorem erase_flash (d : Device) (s : Nat) :
    (sdk_spi_flash_erase_sector d s).1.flash =
      if d.fails d.log.length then d.flash
      else fun a => if a / SPI_FLASH_SEC_SIZE = s then 255 else d.flash a := by
  unfold sdk_spi_flash_erase_sector; split <;> rfl

/-! ## `esp_spiffs_erase` -/

theorem eraseLoop_succ (sector n : Nat) (d : Device) :
    eraseLoop sector (n + 1) d =
      (sdk_spi_flash_erase_sector (eraseLoop sector n d) (add32 sector n)).1 := by
  unfold eraseLoop
  rw [List.range_succ, List.foldl_append]
  rfl

theorem eraseLoop_calls (sector n : Nat) (d : Device) :
    (eraseLoop sector n d).log.map LogEntry.call =
      d.log.map LogEntry.call ++
        (List.range n).map (fun i => DevCall.erase (add32 sector i)) := by
  induction n with
  | zero => simp [eraseLoop]
  | succ n ih =>
    rw [eraseLoop_succ, erase_log, List.map_append, ih, List.range_succ, List.map_append,
      List.append_assoc]
    rfl

theorem eraseLoop_fails (sector n : Nat) (d : Device) :
    (eraseLoop sector n d).fails = d.fails := by
  induction n with
  | zero => simp [eraseLoop]
  | succ n ih => rw [eraseLoop_succ, erase_fails, ih]

theorem eraseLoop_flash (sector n : Nat) (d : Device) (hok : ∀ k, d.fails k = false)
    (a : Nat) :
    (eraseLoop sector n d).flash a =
      if ∃ i, i < n ∧ a / SPI_FLASH_SEC_SIZE = add32 sector i then 255 else d.flash a := by
  induction n with
  | zero => simp [eraseLoop]
  | succ n ih =>
    rw [eraseLoop_succ, erase_flash, eraseLoop_fails, hok]
    simp only [Bool.false_eq_true, if_false]
    rw [ih]
    by_cases h1 : a / SPI_FLASH_SEC_SIZE = add32 sector n
    · rw [if_pos h1, if_pos ⟨n, Nat.lt_succ_self n, h1⟩]
    · rw [if_neg h1]
      by_cases h2 : ∃ i, i < n ∧ a / SPI_FLASH_SEC_SIZE = add32 sector i
      · obtain ⟨i, hi, he⟩ := h2
        rw [if_pos ⟨i, hi, he⟩, if_pos ⟨i, Nat.lt_succ_of_lt hi, he⟩]
      · rw [if_neg h2, if_neg]
        rintro ⟨i, hi, he⟩
        rcases Nat.lt_succ_iff_lt_or_eq.mp hi with h | h
        · exact h2 ⟨i, h, he⟩
        · subst h; exact h1 he

/-! ## Pointer arithmetic -/

theorem sub32_add32_add32 (p i k : Nat) : sub32 (add32 p i) (add32 p k) = sub32 i k := by
  unfold sub32 add32; omega

theorem sub32_add32_ptr (p b a : Nat) (h : a ≤ b) :
    sub32 (add32 p b) a = add32 p (b - a) := by
  unfold sub32 add32; omega

theorem sub32_of_le (i k : Nat) (h : k ≤ i) (hi : i < 4294967296) : sub32 i k = i - k := by
  unfold sub32; omega

theorem add32_of_lt (a b : Nat) (h : a + b < 4294967296) : add32 a b = a + b := by
  unfold add32; omega

/-- A `memcpy` to `p + off`, read back at `p + i`. -/
theorem memcpy_at (ram : Nat → Byte) (p off : Nat) (s : Nat → Byte) (n i : Nat)
    (hi : i < 4294967296) (hn : off + n ≤ 4294967296) :
    memcpy ram (add32 p off) s n (add32 p i) =
      if off ≤ i ∧ i < off + n then s (i - off) else ram (add32 p i) := by
  unfold memcpy
  rw [sub32_add32_add32]
  by_cases h : off ≤ i ∧ i < off + n
  · rw [if_pos h, sub32_of_le i off h.1 hi, if_pos (by omega)]
  · rw [if_neg h, if_neg]
    unfold sub32; omega

/-! ## `esp_spiffs_read` when the device does not fail -/

theorem read_of_ok (d : Device) (addr len : Nat) (h : d.fails d.log.length = false) :
    sdk_spi_flash_read d addr len =
      (⟨d.flash, d.fails, d.log ++ [⟨DevCall.read addr len, true⟩]⟩,
        some (fun i => d.flash (addr + i))) := by
  unfold sdk_spi_flash_read; simp [h]

theorem readLeading_dev (d : Device) (addr size dst : Nat) (ram stk : Nat → Byte) :
    (readLeading d addr size dst ram stk).2.2.fails = d.fails ∧
    (readLeading d addr size dst ram stk).2.2.flash = d.flash := by
  unfold readLeading
  split
  · simp only []
    split <;> exact ⟨read_fails _ _ _, read_flash _ _ _⟩
  · exact ⟨rfl, rfl⟩

theorem readInterior_dev (d : Device) (addr size dst : Nat) (ram : Nat → Byte) :
    (readInterior d addr size dst ram).2.2.fails = d.fails ∧
    (readInterior d addr size dst ram).2.2.flash = d.flash := by
  unfold readInterior
  split
  · simp only []
    split <;> exact ⟨read_fails _ _ _, read_flash _ _ _⟩
  · exact ⟨rfl, rfl⟩

theorem readInterior_of_ok (d : Device) (addr size dst : Nat) (ram : Nat → Byte)
    (h : d.fails d.log.length = false) :
    (readInterior d addr size dst ram).1 = true ∧
    (readInterior d addr size dst ram).2.1 =
      if alignedEnd addr size ≠ alignedBegin addr then
        memcpy ram (sub32 (add32 dst (alignedBegin addr)) addr)
            (fun i => d.flash (alignedBegin addr + i))
            (sub32 (alignedEnd addr size) (alignedBegin addr))
      else ram := by
  unfold readInterior
  split
  · rw [read_of_ok d _ _ h]; exact ⟨rfl, rfl⟩
  · exact ⟨rfl, rfl⟩

theorem readTrailing_of_ok (d : Device) (addr size dst : Nat) (ram : Nat → Byte)
    (h : d.fails d.log.length = false) :
    (readTrailing d addr size dst ram).1 = true ∧
    (readTrailing d addr size dst ram).2.1 =
      if add32 addr size > alignedEnd addr size then
        memcpy ram
            (sub32 (add32 dst size) (sub32 (add32 addr size) (alignedEnd addr size)))
            (fun i => d.flash (alignedEnd addr size + i))
            (sub32 (add32 addr size) (alignedEnd addr size))
      else ram := by
  unfold readTrailing
  split
  · rw [read_of_ok d _ _ h]; exact ⟨rfl, rfl⟩
  · exact ⟨rfl, rfl⟩

/-- On a word-aligned start the leading step of `esp_spiffs_read` does nothing. -/
theorem readLeading_aligned (d : Device) (addr size dst : Nat) (ram stk : Nat → Byte)
    (hal : addr % 4 = 0) (ha : addr < 4294967296) :
    readLeading d addr size dst ram stk = (true, ram, d) := by
  have hB : alignedBegin addr = addr := by
    rw [alignedBegin_eq]; omega
  unfold readLeading; rw [hB]; simp

/-- On a word-aligned start `esp_spiffs_read` is correct: with all device
reads succeeding it returns `SPIFFS_OK` and stores the flash bytes. -/
theorem read_aligned_start (d : Device) (addr size dst : Nat) (ram stk : Nat → Byte)
    (hal : addr % 4 = 0) (hs : addr + size < 4294967296) (hok : ∀ k, d.fails k = false) :
    (esp_spiffs_read d addr size dst ram stk).1 = SPIFFS_OK ∧
    ∀ i, i < size →
      (esp_spiffs_read d addr size dst ram stk).2.1 (add32 dst i) = d.flash (addr + i) := by
  obtain ⟨hB, hE⟩ := window_nowrap addr size (by omega) hs
  have hB2 : alignedBegin addr = addr := by rw [hB]; omega
  have hE2 : alignedEnd addr size = addr + size - (addr + size) % 4 := by
    rw [hE]; split <;> omega
  have h1 := readLeading_aligned d addr size dst ram stk hal (by omega)
  have h2 := readInterior_of_ok d addr size dst ram (hok _)
  have h3 := readTrailing_of_ok (readInterior d addr size dst ram).2.2 addr size dst
    (readInterior d addr size dst ram).2.1
    (by rw [(readInterior_dev d addr size dst ram).1]; exact hok _)
  have hfl := (readInterior_dev d addr size dst ram).2
  have hlen : sub32 (alignedEnd addr size) (alignedBegin addr) = size - (addr + size) % 4 := by
    rw [hB2, hE2, sub32_of_le _ _ (by omega) (by omega)]; omega
  have hp1 : sub32 (add32 dst (alignedBegin addr)) addr = add32 dst 0 := by
    rw [hB2, sub32_add32_ptr _ _ _ (le_refl _), Nat.sub_self]
  have hT : add32 addr size = addr + size := add32_of_lt _ _ hs
  have hnb : sub32 (add32 addr size) (alignedEnd addr size) = (addr + size) % 4 := by
    rw [hT, hE2, sub32_of_le _ _ (by omega) (by omega)]; omega
  have hp2 : sub32 (add32 dst size) ((addr + size) % 4) =
      add32 dst (size - (addr + size) % 4) :=
    sub32_add32_ptr _ _ _ (by omega)
  unfold esp_spiffs_read
  simp only [h1, h2.1, h3.1, Bool.true_eq_false, if_false, true_and]
  intro i hi
  rw [h3.2, h2.2, hfl, hlen, hp1, hnb, hp2, hT, hE2, hB2]
  by_cases hc : addr + size > addr + size - (addr + size) % 4
  · rw [if_pos hc, memcpy_at _ _ _ _ _ _ (by omega) (by omega)]
    by_cases hc2 : size - (addr + size) % 4 ≤ i ∧ i < size - (addr + size) % 4 + (addr + size) % 4
    · rw [if_pos hc2]; congr 1; omega
    · rw [if_neg hc2, if_pos (by omega), memcpy_at _ _ _ _ _ _ (by omega) (by omega),
        if_pos (by omega)]
      congr 1
  · rw [if_neg hc, if_pos (by omega), memcpy_at _ _ _ _ _ _ (by omega) (by omega),
      if_pos (by omega)]
    congr 1

/-! ## Error propagation -/

theorem program_getD (f : Nat → Byte) (addr : Nat) (data : Nat → Byte) (len : Nat) :
    program f addr (fun i => ((List.range len).map data).getD i 255)
      ((List.range len).map data).length = program f addr data len := by
  funext a
  unfold program
  simp only [List.length_map, List.length_range]
  split
  · rename_i h
    have h2 : a - addr < len := by omega
    congr 1
    simp [List.getD_eq_getElem?_getD, List.getElem?_map, List.getElem?_range h2]
  · rfl

theorem Propagates.refl (d : Device) : Propagates d true d [] := by
  refine ⟨by simp, rfl, by simp, by simp, by simp, rfl⟩

theorem Propagates.single (d e : Device) (c : DevCall)
    (hlog : e.log = d.log ++ [⟨c, !d.fails d.log.length⟩]) (hf : e.fails = d.fails)
    (hfl : e.flash = applyEntry d.flash ⟨c, !d.fails d.log.length⟩) :
    Propagates d (!d.fails d.log.length) e [⟨c, !d.fails d.log.length⟩] := by
  refine ⟨hlog, hf, ?_, by simp, by simp, by simp [replay, hfl]⟩
  intro k hk
  have : k = 0 := by simpa using hk
  subst this
  simp

theorem Propagates.write (d : Device) (addr : Nat) (data : Nat → Byte) (len : Nat) :
    Propagates d (sdk_spi_flash_write d addr data len).2 (sdk_spi_flash_write d addr data len).1
      [⟨DevCall.write addr ((List.range len).map data), !d.fails d.log.length⟩] := by
  rw [write_ok]
  apply Propagates.single
  · exact write_log _ _ _ _
  · exact write_fails _ _ _ _
  · rw [write_flash]
    unfold applyEntry
    cases d.fails d.log.length
    · simp only [Bool.not_false, if_true, Bool.false_eq_true, if_false]
      exact (program_getD _ _ _ _).symm
    · simp

theorem read_ok_iff (d : Device) (addr len : Nat) :
    ((sdk_spi_flash_read d addr len).2.isSome) = !d.fails d.log.length := by
  rw [read_data]; cases d.fails d.log.length <;> simp

theorem Propagates.read (d : Device) (addr len : Nat) :
    Propagates d (sdk_spi_flash_read d addr len).2.isSome (sdk_spi_flash_read d addr len).1
      [⟨DevCall.read addr len, !d.fails d.log.length⟩] := by
  rw [read_ok_iff]
  apply Propagates.single
  · exact read_log _ _ _
  · exact read_fails _ _ _
  · rw [read_flash]
    unfold applyEntry
    cases d.fails d.log.length <;> simp

theorem Propagates.trans {d e g : Device} {ok : Bool} {l1 l2 : List LogEntry}
    (h1 : Propagates d true e l1) (h2 : Propagates e ok g l2) :
    Propagates d ok g (l1 ++ l2) := by
  obtain ⟨a1, a2, a3, a4, a5, a6⟩ := h1
  obtain ⟨b1, b2, b3, b4, b5, b6⟩ := h2
  have hall : ∀ x ∈ l1, x.ok = true := a5.mp rfl
  refine ⟨by rw [b1, a1, List.append_assoc], by rw [b2, a2], ?_, ?_, ?_, ?_⟩
  · intro k hk
    rw [List.map_append]
    by_cases hk1 : k < l1.length
    · rw [List.getD_append _ _ _ _ (by simpa using hk1)]
      exact a3 k hk1
    · have hk2 : k - l1.length < l2.length := by
        rw [List.length_append] at hk; omega
      rw [List.getD_append_right _ _ _ _ (by simpa using hk1)]
      rw [List.length_map, b3 _ hk2, a2, a1, List.length_append]
      congr 2; omega
  · intro x hx
    by_cases hl2 : l2 = []
    · subst hl2
      rw [List.append_nil] at hx
      exact hall x (List.mem_of_mem_dropLast hx)
    · rw [List.dropLast_append_of_ne_nil _ hl2] at hx
      rcases List.mem_append.mp hx with h | h
      · exact hall x h
      · exact b4 x h
  · rw [b5]
    constructor
    · intro h x hx
      rcases List.mem_append.mp hx with h3 | h3
      · exact hall x h3
      · exact h x h3
    · intro h x hx
      exact h x (List.mem_append_right _ hx)
  · rw [b6, a6, replay, replay, replay, List.foldl_append]

theorem Propagates.of_write_step (d : Device) (addr : Nat) (data : Nat → Byte) (len : Nat) :
    ∃ l, Propagates d (sdk_spi_flash_write d addr data len).2
      (sdk_spi_flash_write d addr data len).1 l :=
  ⟨_, Propagates.write d addr data len⟩

theorem writeLeading_propagates (d : Device) (addr size src : Nat) (ram : Nat → Byte) :
    ∃ l, Propagates d (writeLeading d addr size src ram).1
      (writeLeading d addr size src ram).2 l := by
  unfold writeLeading
  split
  · exact Propagates.of_write_step _ _ _ _
  · exact ⟨[], Propagates.refl d⟩

theorem writeTrailing_propagates (d : Device) (addr size src : Nat) (ram : Nat → Byte) :
    ∃ l, Propagates d (writeTrailing d addr size src ram).1
      (writeTrailing d addr size src ram).2 l := by
  unfold writeTrailing
  split
  · exact Propagates.of_write_step _ _ _ _
  · exact ⟨[], Propagates.refl d⟩

theorem stagingLoop_propagates (ram : Nat → Byte) (fuel : Nat) :
    ∀ (sizeLeft srcLeftover aBegin : Nat) (d : Device),
      ∃ l, Propagates d (stagingLoop ram fuel sizeLeft srcLeftover aBegin d).1
        (stagingLoop ram fuel sizeLeft srcLeftover aBegin d).2 l := by
  induction fuel with
  | zero => intro _ _ _ d; exact ⟨[], Propagates.refl d⟩
  | succ n ih =>
    intro sizeLeft srcLeftover aBegin d
    unfold stagingLoop
    have h := Propagates.write d aBegin (bytesAt ram srcLeftover) (willCopy sizeLeft)
    split
    · exact ⟨[], Propagates.refl d⟩
    · simp only []
      split
      · rename_i hf
        rw [hf] at h
        exact ⟨_, h⟩
      · rename_i hf
        rw [Bool.not_eq_false] at hf
        rw [hf] at h
        obtain ⟨l, hl⟩ := ih (sub32 sizeLeft (willCopy sizeLeft))
          (add32 srcLeftover (4 * willCopy sizeLeft)) (add32 aBegin (willCopy sizeLeft))
          (sdk_spi_flash_write d aBegin (bytesAt ram srcLeftover) (willCopy sizeLeft)).1
        exact ⟨_, Propagates.trans h hl⟩

theorem writeInterior_propagates (d : Device) (addr size src : Nat) (ram : Nat → Byte) :
    ∃ l, Propagates d (writeInterior d addr size src ram).1
      (writeInterior d addr size src ram).2 l := by
  unfold writeInterior
  split
  · simp only []
    split
    · exact Propagates.of_write_step _ _ _ _
    · exact stagingLoop_propagates _ _ _ _ _ _
  · exact ⟨[], Propagates.refl d⟩

theorem Propagates.of_read_step (d : Device) (addr len : Nat) :
    ∃ l, Propagates d (sdk_spi_flash_read d addr len).2.isSome
      (sdk_spi_flash_read d addr len).1 l :=
  ⟨_, Propagates.read d addr len⟩

theorem readLeading_propagates (d : Device) (addr size dst : Nat) (ram stk : Nat → Byte) :
    ∃ l, Propagates d (readLeading d addr size dst ram stk).1
      (readLeading d addr size dst ram stk).2.2 l := by
  unfold readLeading
  split
  · simp only []
    have h := Propagates.of_read_step d (sub32 (alignedEnd addr size) 4) 4
    split
    · rename_i hn; rw [hn] at h; exact h
    · rename_i hn; rw [hn] at h; exact h
  · exact ⟨[], Propagates.refl d⟩

theorem readInterior_propagates (d : Device) (addr size dst : Nat) (ram : Nat → Byte) :
    ∃ l, Propagates d (readInterior d addr size dst ram).1
      (readInterior d addr size dst ram).2.2 l := by
  unfold readInterior
  split
  · simp only []
    have h := Propagates.of_read_step d (alignedBegin addr)
      (sub32 (alignedEnd addr size) (alignedBegin addr))
    split
    · rename_i hn; rw [hn] at h; exact h
    · rename_i hn; rw [hn] at h; exact h
  · exact ⟨[], Propagates.refl d⟩

theorem readTrailing_propagates (d : Device) (addr size dst : Nat) (ram : Nat → Byte) :
    ∃ l, Propagates d (readTrailing d addr size dst ram).1
      (readTrailing d addr size dst ram).2.2 l := by
  unfold readTrailing
  split
  · simp only []
    have h := Propagates.of_read_step d (alignedEnd addr size) 4
    split
    · rename_i hn; rw [hn] at h; exact h
    · rename_i hn; rw [hn] at h; exact h
  · exact ⟨[], Propagates.refl d⟩

/-- From the step-level statement to the statement on the result code. -/
theorem ErrorsPropagated.of_steps {d e : Device} {ok : Bool} {l : List LogEntry}
    (h : Propagates d ok e l) :
    ErrorsPropagated d (if ok = false then SPIFFS_ERR_INTERNAL else SPIFFS_OK) e := by
  obtain ⟨a1, _, a3, a4, a5, a6⟩ := h
  refine ⟨l, a1, a3, a4, ?_, ?_, a6⟩
  · cases ok
    · simp only [if_true, true_iff]
      by_contra hcon
      have : ∀ x ∈ l, x.ok = true := by
        intro x hx
        by_contra hx2
        exact hcon ⟨x, hx, by simpa using hx2⟩
      exact absurd (a5.mpr this) (by simp)
    · simp only [Bool.true_eq_false, if_false]
      have hall := a5.mp rfl
      constructor
      · intro h; exact absurd h (by decide)
      · rintro ⟨x, hx, hx2⟩
        rw [hall x hx] at hx2
        exact absurd hx2 (by simp)
  · cases ok
    · simp only [if_true]
      constructor
      · intro h; exact absurd h (by decide)
      · intro h; exact absurd (a5.mpr h) (by simp)
    · simp only [Bool.true_eq_false, if_false, true_iff]
      exact a5.mp rfl

/-- C6. For every request and every pattern of device failures,
`esp_spiffs_read` and `esp_spiffs_write` return `SPIFFS_ERR_INTERNAL` if and
only if a device call they issue fails and `SPIFFS_OK` if and only if none
fails; every call before the last one of the invocation succeeded, so the
first failing call is the last call; and the flash holds the effect of the
device writes that succeeded. -/
theorem read_write_error_propagation (d : Device) (addr size p : Nat) (ram stk : Nat → Byte) :
    ErrorsPropagated d (esp_spiffs_read d addr size p ram stk).1
      (esp_spiffs_read d addr size p ram stk).2.2 ∧
    ErrorsPropagated d (esp_spiffs_write d addr size p ram).1
      (esp_spiffs_write d addr size p ram).2 := by
  constructor
  · obtain ⟨l1, h1⟩ := readLeading_propagates d addr size p ram stk
    obtain ⟨l2, h2⟩ := readInterior_propagates (readLeading d addr size p ram stk).2.2 addr
      size p (readLeading d addr size p ram stk).2.1
    obtain ⟨l3, h3⟩ := readTrailing_propagates
      (readInterior (readLeading d addr size p ram stk).2.2 addr size p
        (readLeading d addr size p ram stk).2.1).2.2 addr size p
      (readInterior (readLeading d addr size p ram stk).2.2 addr size p
        (readLeading d addr size p ram stk).2.1).2.1
    unfold esp_spiffs_read
    simp only []
    split
    · rename_i hf
      rw [hf] at h1
      exact ErrorsPropagated.of_steps h1
    · rename_i hf
      rw [Bool.not_eq_false] at hf
      rw [hf] at h1
      split
      · rename_i hg
        rw [hg] at h2
        exact ErrorsPropagated.of_steps (Propagates.trans h1 h2)
      · rename_i hg
        rw [Bool.not_eq_false] at hg
        rw [hg] at h2
        have h12 := Propagates.trans h1 h2
        split
        · rename_i hh
          rw [hh] at h3
          exact ErrorsPropagated.of_steps (Propagates.trans h12 h3)
        · rename_i hh
          rw [Bool.not_eq_false] at hh
          rw [hh] at h3
          exact ErrorsPropagated.of_steps (Propagates.trans h12 h3)
  · obtain ⟨l1, h1⟩ := writeLeading_propagates d addr size p ram
    obtain ⟨l2, h2⟩ := writeInterior_propagates (writeLeading d addr size p ram).2 addr
      size p ram
    obtain ⟨l3, h3⟩ := writeTrailing_propagates
      (writeInterior (writeLeading d addr size p ram).2 addr size p ram).2 addr size p ram
    unfold esp_spiffs_write
    simp only []
    split
    · rename_i hf
      rw [hf] at h1
      exact ErrorsPropagated.of_steps h1
    · rename_i hf
      rw [Bool.not_eq_false] at hf
      rw [hf] at h1
      split
      · rename_i hg
        rw [hg] at h2
        exact ErrorsPropagated.of_steps (Propagates.trans h1 h2)
      · rename_i hg
        rw [Bool.not_eq_false] at hg
        rw [hg] at h2
        have h12 := Propagates.trans h1 h2
        split
        · rename_i hh
          rw [hh] at h3
          exact ErrorsPropagated.of_steps (Propagates.trans h12 h3)
        · rename_i hh
          rw [Bool.not_eq_false] at hh
          rw [hh] at h3
          exact ErrorsPropagated.of_steps (Propagates.trans h12 h3)

/-! ## The frame of `esp_spiffs_write` -/

/-- The window of a request whose start does not wrap when rounded up, in a
form fit for linear arithmetic. -/
theorem window_facts (addr size : Nat) (h3 : addr + 3 < 4294967296)
    (hs : addr + size < 4294967296) :
    alignedBegin addr = addr + 3 - (addr + 3) % 4 ∧
    ((addr + size - (addr + size) % 4 < alignedBegin addr ∧
        alignedEnd addr size = alignedBegin addr) ∨
      (alignedBegin addr ≤ addr + size - (addr + size) % 4 ∧
        alignedEnd addr size = addr + size - (addr + size) % 4)) := by
  obtain ⟨hB, hE⟩ := window_nowrap addr size h3 hs
  refine ⟨hB, ?_⟩
  rw [hE, hB]
  split
  · left; exact ⟨by assumption, rfl⟩
  · right; exact ⟨by omega, rfl⟩

/-- A device write changes no byte outside the programmed range, nor a byte
that is programmed with `0xFF`. -/
theorem sdk_write_keeps (d : Device) (wa : Nat) (data : Nat → Byte) (len a : Nat)
    (h : wa ≤ a → a < wa + len → data (a - wa) = 255) :
    (sdk_spi_flash_write d wa data len).1.flash a = d.flash a := by
  rw [write_flash]
  split
  · rfl
  · unfold program
    split
    · rename_i hr
      rw [h hr.1 hr.2, and_ff]
    · rfl

theorem writeLeading_frame (d : Device) (addr size src : Nat) (ram : Nat → Byte)
    (h3 : addr + 3 < 4294967296) (hs : addr + size < 4294967296) (a : Nat)
    (ha : ¬(addr ≤ a ∧ a < addr + size)) :
    (writeLeading d addr size src ram).2.flash a = d.flash a := by
  obtain ⟨hB, hE⟩ := window_facts addr size h3 hs
  unfold writeLeading
  split
  · rename_i hlt
    simp only []
    have hofs : sub32 (alignedBegin addr) addr = alignedBegin addr - addr :=
      sub32_of_le _ _ (by omega) (by omega)
    have hwa : sub32 (alignedBegin addr) 4 = alignedBegin addr - 4 :=
      sub32_of_le _ _ (by omega) (by omega)
    have h4 : sub32 4 (alignedBegin addr - addr) = 4 - (alignedBegin addr - addr) :=
      sub32_of_le _ _ (by omega) (by omega)
    rw [hofs, hwa, h4]
    apply sdk_write_keeps
    intro h1 h2
    unfold memcpyLocal
    rw [if_neg]
    split <;> omega
  · rfl

theorem writeTrailing_frame (d : Device) (addr size src : Nat) (ram : Nat → Byte)
    (h3 : addr + 3 < 4294967296) (hs : addr + size < 4294967296) (a : Nat)
    (ha : ¬(addr ≤ a ∧ a < addr + size)) :
    (writeTrailing d addr size src ram).2.flash a = d.flash a := by
  obtain ⟨hB, hE⟩ := window_facts addr size h3 hs
  unfold writeTrailing
  rw [add32_of_lt _ _ hs]
  split
  · rename_i hlt
    simp only []
    have hnb : sub32 (addr + size) (alignedEnd addr size) = addr + size - alignedEnd addr size :=
      sub32_of_le _ _ (by omega) (by omega)
    rw [hnb]
    apply sdk_write_keeps
    intro h1 h2
    unfold memcpyLocal
    rw [if_neg]
    omega
  · rfl

theorem willCopy_le (n : Nat) : willCopy n ≤ n ∧ willCopy n ≤ 512 ∧ (0 < n → 0 < willCopy n) := by
  unfold willCopy UNALIGNED_WRITE_BUFFER_SIZE
  split <;> omega

/-- The staging loop programs only addresses of `[aBegin, aBegin + sizeLeft)`. -/
theorem stagingLoop_frame (ram : Nat → Byte) (a : Nat) (fuel : Nat) :
    ∀ (sizeLeft srcLeftover aBegin : Nat) (d : Device),
      aBegin + sizeLeft < 4294967296 → ¬(aBegin ≤ a ∧ a < aBegin + sizeLeft) →
      (stagingLoop ram fuel sizeLeft srcLeftover aBegin d).2.flash a = d.flash a := by
  induction fuel with
  | zero => intro _ _ _ _ _ _; rfl
  | succ n ih =>
    intro sizeLeft srcLeftover aBegin d hb ha
    obtain ⟨hw1, _, _⟩ := willCopy_le sizeLeft
    have hk : (sdk_spi_flash_write d aBegin (bytesAt ram srcLeftover)
        (willCopy sizeLeft)).1.flash a = d.flash a :=
      sdk_write_keeps _ _ _ _ _ (by intro h1 h2; omega)
    unfold stagingLoop
    split
    · rfl
    · simp only []
      split
      · exact hk
      · rw [ih _ _ _ _ ?_ ?_, hk]
        · rw [add32_of_lt _ _ (by omega), sub32_of_le _ _ hw1 (by omega)]; omega
        · rw [add32_of_lt _ _ (by omega), sub32_of_le _ _ hw1 (by omega)]; omega

theorem writeInterior_frame (d : Device) (addr size src : Nat) (ram : Nat → Byte)
    (h3 : addr + 3 < 4294967296) (hs : addr + size < 4294967296) (a : Nat)
    (ha : ¬(addr ≤ a ∧ a < addr + size)) :
    (writeInterior d addr size src ram).2.flash a = d.flash a := by
  obtain ⟨hB, hE⟩ := window_facts addr size h3 hs
  unfold writeInterior
  split
  · rename_i hne
    have hlen : sub32 (alignedEnd addr size) (alignedBegin addr) =
        alignedEnd addr size - alignedBegin addr :=
      sub32_of_le _ _ (by omega) (by omega)
    simp only []
    rw [hlen]
    split
    · apply sdk_write_keeps
      intro h1 h2; omega
    · apply stagingLoop_frame
      · omega
      · omega
  · rfl

/-- C4 as amended. For every initial flash content, every pattern of device
failures, every source pointer and every request with `addr + 3` and
`addr + size` below `2 ^ 32`, `esp_spiffs_write(addr, size, src)` leaves every
flash byte outside `[addr, addr + size)` at its previous value. -/
theorem write_keeps_bytes_outside (d : Device) (addr size src : Nat) (ram : Nat → Byte)
    (h3 : addr + 3 < 4294967296) (hs : addr + size < 4294967296) (a : Nat)
    (ha : ¬(addr ≤ a ∧ a < addr + size)) :
    (esp_spiffs_write d addr size src ram).2.flash a = d.flash a := by
  have h1 := writeLeading_frame d addr size src ram h3 hs a ha
  have h2 := writeInterior_frame (writeLeading d addr size src ram).2 addr size src ram
    h3 hs a ha
  have h4 := writeTrailing_frame
    (writeInterior (writeLeading d addr size src ram).2 addr size src ram).2 addr size src ram
    h3 hs a ha
  unfold esp_spiffs_write
  simp only []
  split
  · exact h1
  · split
    · rw [h2, h1]
    · split
      · rw [h4, h2, h1]
      · rw [h4, h2, h1]

/-! ## What `esp_spiffs_write` programs -/

theorem write_flash_of_ok (d : Device) (wa : Nat) (data : Nat → Byte) (len : Nat)
    (h : (sdk_spi_flash_write d wa data len).2 = true) :
    (sdk_spi_flash_write d wa data len).1.flash = program d.flash wa data len := by
  rw [write_ok] at h
  rw [write_flash]
  cases hf : d.fails d.log.length
  · rfl
  · rw [hf] at h; exact absurd h (by simp)

/-- A successful `esp_spiffs_write` has run its three steps with success. -/
theorem write_ok_steps (d : Device) (addr size src : Nat) (ram : Nat → Byte)
    (hok : (esp_spiffs_write d addr size src ram).1 = SPIFFS_OK) :
    (writeLeading d addr size src ram).1 = true ∧
    (writeInterior (writeLeading d addr size src ram).2 addr size src ram).1 = true ∧
    (writeTrailing (writeInterior (writeLeading d addr size src ram).2 addr size src ram).2
      addr size src ram).1 = true ∧
    (esp_spiffs_write d addr size src ram).2 =
      (writeTrailing (writeInterior (writeLeading d addr size src ram).2 addr size src ram).2
        addr size src ram).2 := by
  unfold esp_spiffs_write at hok ⊢
  simp only [] at hok ⊢
  split at hok
  · exact absurd (show SPIFFS_ERR_INTERNAL = SPIFFS_OK from hok) (by decide)
  · split at hok
    · exact absurd (show SPIFFS_ERR_INTERNAL = SPIFFS_OK from hok) (by decide)
    · split at hok
      · exact absurd (show SPIFFS_ERR_INTERNAL = SPIFFS_OK from hok) (by decide)
      · rename_i h1 h2 h3
        rw [Bool.not_eq_false] at h1 h2 h3
        rw [if_neg (by simp [h1]), if_neg (by simp [h2]), if_neg (by simp [h3])]
        exact ⟨h1, h2, h3, rfl⟩

/-- One chunk is enough for an interior of at most 512 bytes. -/
theorem stagingLoop_short (ram : Nat → Byte) (len p aBegin : Nat) (d : Device)
    (h0 : 0 < len) (hlen : len ≤ 512)
    (hok : (stagingLoop ram len len p aBegin d).1 = true) :
    (stagingLoop ram len len p aBegin d).2.flash = program d.flash aBegin (bytesAt ram p) len := by
  obtain ⟨n, rfl⟩ : ∃ n, len = n + 1 := ⟨len - 1, by omega⟩
  have hw : willCopy (n + 1) = n + 1 := by
    unfold willCopy UNALIGNED_WRITE_BUFFER_SIZE; split <;> omega
  have hz : sub32 (n + 1) (n + 1) = 0 := by unfold sub32; omega
  unfold stagingLoop at hok ⊢
  rw [if_neg (by omega)] at hok ⊢
  simp only [hw, hz] at hok ⊢
  split at hok
  · exact absurd hok (by simp)
  · rename_i hr
    rw [Bool.not_eq_false] at hr
    rw [if_neg (by simp [hr])]
    have hstop : ∀ q b e, stagingLoop ram n 0 q b e = (true, e) := by
      intro q b e
      cases n with
      | zero => rfl
      | succ m => unfold stagingLoop; simp
    rw [hstop]
    exact write_flash_of_ok _ _ _ _ hr

/-- The iteration bound of the staging loop is never what stops it: with at
least `sizeLeft` iterations allowed, allowing one more changes nothing. -/
theorem stagingLoop_bound_enough (ram : Nat → Byte) (fuel : Nat) :
    ∀ (sizeLeft srcLeftover aBegin : Nat) (d : Device),
      sizeLeft ≤ fuel → sizeLeft < 4294967296 →
      stagingLoop ram (fuel + 1) sizeLeft srcLeftover aBegin d =
        stagingLoop ram fuel sizeLeft srcLeftover aBegin d := by
  induction fuel with
  | zero =>
    intro sizeLeft srcLeftover aBegin d h _
    have h0 : sizeLeft = 0 := by omega
    subst h0
    unfold stagingLoop
    simp [stagingLoop]
  | succ n ih =>
    intro sizeLeft srcLeftover aBegin d h hlt
    obtain ⟨hw1, _, hw3⟩ := willCopy_le sizeLeft
    rw [stagingLoop]
    conv => rhs; rw [stagingLoop]
    split
    · rfl
    · rename_i hne
      simp only []
      split
      · rfl
      · apply ih
        · rw [sub32_of_le _ _ hw1 hlt]
          have := hw3 (by omega)
          omega
        · rw [sub32_of_le _ _ hw1 hlt]; omega

theorem writeLeading_bytes (d : Device) (addr size src : Nat) (ram : Nat → Byte)
    (h3 : addr + 3 < 4294967296) (hs : addr + size < 4294967296)
    (hok : (writeLeading d addr size src ram).1 = true) (a : Nat) :
    (writeLeading d addr size src ram).2.flash a =
      if addr ≤ a ∧ a < addr + size ∧ a < alignedBegin addr then
        d.flash a &&& ram (add32 src (a - addr))
      else d.flash a := by
  obtain ⟨hB, hE⟩ := window_facts addr size h3 hs
  unfold writeLeading at hok ⊢
  split
  · rename_i hlt
    rw [if_pos hlt] at hok
    simp only [] at hok ⊢
    have hofs : sub32 (alignedBegin addr) addr = alignedBegin addr - addr :=
      sub32_of_le _ _ (by omega) (by omega)
    have hwa : sub32 (alignedBegin addr) 4 = alignedBegin addr - 4 :=
      sub32_of_le _ _ (by omega) (by omega)
    have h4 : sub32 4 (alignedBegin addr - addr) = 4 - (alignedBegin addr - addr) :=
      sub32_of_le _ _ (by omega) (by omega)
    rw [hofs, hwa, h4] at hok ⊢
    rw [write_flash_of_ok _ _ _ _ hok]
    unfold program memcpyLocal bytesAt
    by_cases hin : addr ≤ a ∧ a < addr + size ∧ a < alignedBegin addr
    · have hidx : a - (alignedBegin addr - 4) - (4 - (alignedBegin addr - addr)) = a - addr := by
        omega
      rw [if_pos hin, if_pos (by omega), if_pos (by split <;> omega), hidx]
    · rw [if_neg hin]
      split
      · rw [if_neg (by split <;> omega), and_ff]
      · rfl
  · rw [if_neg (by omega)]

theorem writeTrailing_bytes (d : Device) (addr size src : Nat) (ram : Nat → Byte)
    (h3 : addr + 3 < 4294967296) (hs : addr + size < 4294967296)
    (hok : (writeTrailing d addr size src ram).1 = true) (a : Nat) :
    (writeTrailing d addr size src ram).2.flash a =
      if alignedEnd addr size ≤ a ∧ a < addr + size then
        d.flash a &&& ram (add32 src (a - addr))
      else d.flash a := by
  obtain ⟨hB, hE⟩ := window_facts addr size h3 hs
  unfold writeTrailing at hok ⊢
  rw [add32_of_lt _ _ hs] at hok ⊢
  split
  · rename_i hlt
    rw [if_pos hlt] at hok
    simp only [] at hok ⊢
    have hnb : sub32 (addr + size) (alignedEnd addr size) = addr + size - alignedEnd addr size :=
      sub32_of_le _ _ (by omega) (by omega)
    rw [hnb] at hok ⊢
    rw [write_flash_of_ok _ _ _ _ hok]
    unfold program memcpyLocal bytesAt
    by_cases hin : alignedEnd addr size ≤ a ∧ a < addr + size
    · have hidx : add32 (sub32 (add32 src size) (addr + size - alignedEnd addr size))
          (a - alignedEnd addr size - 0) = add32 src (a - addr) := by
        unfold add32 sub32; omega
      rw [if_pos hin, if_pos (by omega), if_pos (by omega), hidx]
    · rw [if_neg hin]
      split
      · rw [if_neg (by omega), and_ff]
      · rfl
  · rw [if_neg (by omega)]

theorem writeInterior_bytes (d : Device) (addr size src : Nat) (ram : Nat → Byte)
    (h3 : addr + 3 < 4294967296) (hs : addr + size < 4294967296)
    (hsrc : sub32 (add32 src (alignedBegin addr)) addr &&& 3 = 0 ∨
      sub32 (alignedEnd addr size) (alignedBegin addr) ≤ UNALIGNED_WRITE_BUFFER_SIZE)
    (hok : (writeInterior d addr size src ram).1 = true) (a : Nat) :
    (writeInterior d addr size src ram).2.flash a =
      if alignedBegin addr ≤ a ∧ a < alignedEnd addr size then
        d.flash a &&& ram (add32 src (a - addr))
      else d.flash a := by
  obtain ⟨hB, hE⟩ := window_facts addr size h3 hs
  have hlen : sub32 (alignedEnd addr size) (alignedBegin addr) =
      alignedEnd addr size - alignedBegin addr :=
    sub32_of_le _ _ (by omega) (by omega)
  have hprog : program d.flash (alignedBegin addr)
      (bytesAt ram (sub32 (add32 src (alignedBegin addr)) addr))
      (alignedEnd addr size - alignedBegin addr) a =
      if alignedBegin addr ≤ a ∧ a < alignedEnd addr size then
        d.flash a &&& ram (add32 src (a - addr))
      else d.flash a := by
    unfold program bytesAt
    by_cases hin : alignedBegin addr ≤ a ∧ a < alignedEnd addr size
    · have hidx : add32 (sub32 (add32 src (alignedBegin addr)) addr) (a - alignedBegin addr) =
          add32 src (a - addr) := by
        unfold add32 sub32; omega
      rw [if_pos hin, if_pos (by omega), hidx]
    · rw [if_neg hin, if_neg (by omega)]
  unfold writeInterior at hok ⊢
  split
  · rename_i hne
    rw [if_pos hne] at hok
    simp only [] at hok ⊢
    rw [hlen] at hok ⊢
    split
    · rename_i hal
      rw [if_pos hal] at hok
      rw [write_flash_of_ok _ _ _ _ hok]
      exact hprog
    · rename_i hal
      rw [if_neg hal] at hok
      have hshort : alignedEnd addr size - alignedBegin addr ≤ 512 := by
        rcases hsrc with h | h
        · exact absurd h hal
        · rw [hlen] at h; exact h
      rw [stagingLoop_short _ _ _ _ _ (by omega) hshort hok]
      exact hprog
  · rw [if_neg (by omega)]

/-- The bytes of the request after a successful `esp_spiffs_write` whose
interior is written in one device call: each is the old flash byte AND the
source byte.  Requests with `addr + 3` below `2 ^ 32`. -/
theorem write_bytes_low (d : Device) (addr size src : Nat) (ram : Nat → Byte)
    (h3 : addr + 3 < 4294967296) (hs : addr + size < 4294967296)
    (hsrc : sub32 (add32 src (alignedBegin addr)) addr &&& 3 = 0 ∨
      sub32 (alignedEnd addr size) (alignedBegin addr) ≤ UNALIGNED_WRITE_BUFFER_SIZE)
    (hok : (esp_spiffs_write d addr size src ram).1 = SPIFFS_OK) (i : Nat) (hi : i < size) :
    (esp_spiffs_write d addr size src ram).2.flash (addr + i) =
      d.flash (addr + i) &&& ram (add32 src i) := by
  obtain ⟨k1, k2, k3, k4⟩ := write_ok_steps d addr size src ram hok
  obtain ⟨hB, hE⟩ := window_facts addr size h3 hs
  rw [k4, writeTrailing_bytes _ _ _ _ _ h3 hs k3, writeInterior_bytes _ _ _ _ _ h3 hs hsrc k2,
    writeLeading_bytes _ _ _ _ _ h3 hs k1]
  have hidx : addr + i - addr = i := by omega
  rw [hidx]
  by_cases c1 : addr + i < alignedBegin addr
  · rw [if_neg (by omega), if_neg (by omega), if_pos (by omega)]
  · by_cases c2 : addr + i < alignedEnd addr size
    · rw [if_neg (by omega), if_pos (by omega), if_neg (by omega)]
    · rw [if_pos (by omega), if_neg (by omega), if_neg (by omega)]

/-- The same for the requests that start in the last three bytes of the
address space, where `(addr + 3) & ~3` wraps to 0: their bytes are all
written by the trailing step. -/
theorem write_bytes_top (d : Device) (addr size src : Nat) (ram : Nat → Byte)
    (h3 : 4294967296 ≤ addr + 3) (hs : addr + size < 4294967296)
    (hsrc : sub32 (add32 src (alignedBegin addr)) addr &&& 3 = 0 ∨
      sub32 (alignedEnd addr size) (alignedBegin addr) ≤ UNALIGNED_WRITE_BUFFER_SIZE)
    (hok : (esp_spiffs_write d addr size src ram).1 = SPIFFS_OK) (i : Nat) (hi : i < size) :
    (esp_spiffs_write d addr size src ram).2.flash (addr + i) =
      d.flash (addr + i) &&& ram (add32 src i) := by
  obtain ⟨k1, k2, k3, k4⟩ := write_ok_steps d addr size src ram hok
  have hB : alignedBegin addr = 0 := by rw [alignedBegin_eq]; omega
  have hE : alignedEnd addr size = 4294967292 := by
    rw [alignedEnd_eq]; split <;> omega
  have hlen : sub32 (alignedEnd addr size) (alignedBegin addr) = 4294967292 := by
    rw [hB, hE]; rfl
  have hL : writeLeading d addr size src ram = (true, d) := by
    unfold writeLeading; rw [hB, if_neg (by omega)]
  rw [hL] at k2 k3 k4
  simp only [] at k2 k3 k4
  have hal : sub32 (add32 src (alignedBegin addr)) addr &&& 3 = 0 := by
    rcases hsrc with h | h
    · exact h
    · rw [hlen] at h; unfold UNALIGNED_WRITE_BUFFER_SIZE at h; omega
  have hI : (writeInterior d addr size src ram).2.flash (addr + i) = d.flash (addr + i) := by
    unfold writeInterior at k2 ⊢
    rw [if_pos (by rw [hB, hE]; decide)] at k2 ⊢
    simp only [] at k2 ⊢
    rw [if_pos hal] at k2 ⊢
    rw [write_flash_of_ok _ _ _ _ k2, hlen, hB]
    unfold program
    rw [if_neg (by omega)]
  have hA : add32 addr size = addr + size := add32_of_lt _ _ hs
  have hnb : sub32 (addr + size) 4294967292 = addr + size - 4294967292 :=
    sub32_of_le _ _ (by omega) (by omega)
  rw [k4]
  unfold writeTrailing at k3 ⊢
  rw [hA, hE, if_pos (by omega)] at k3 ⊢
  simp only [] at k3 ⊢
  rw [hnb] at k3 ⊢
  rw [write_flash_of_ok _ _ _ _ k3]
  unfold program memcpyLocal bytesAt
  have hidx : add32 (sub32 (add32 src size) (addr + size - 4294967292))
      (addr + i - 4294967292 - 0) = add32 src i := by
    unfold add32 sub32; omega
  rw [if_pos (by omega), if_pos (by omega), hidx, hI]

/-! ## Claims on `esp_spiffs_write` -/

/-- Where `esp_spiffs_write` is right on an erased flash: for every request
with `addr + size` below `2 ^ 32` whose interior source pointer
`src + alignedBegin - addr` is word-aligned (the test of line 91 succeeds, the
bulk write) or whose interior fits one pass of the staging buffer, on a flash
whose bytes in `[addr, addr + size)` are `0xFF`, a successful call leaves
`data[i]` in the flash byte at `addr + i` for every `i < size`. -/
theorem write_on_erased_flash (d : Device) (addr size src : Nat) (ram : Nat → Byte)
    (hs : addr + size < 4294967296)
    (hsrc : sub32 (add32 src (alignedBegin addr)) addr &&& 3 = 0 ∨
      sub32 (alignedEnd addr size) (alignedBegin addr) ≤ UNALIGNED_WRITE_BUFFER_SIZE)
    (her : ∀ i, i < size → d.flash (addr + i) = 255)
    (hok : (esp_spiffs_write d addr size src ram).1 = SPIFFS_OK) :
    ∀ i, i < size → (esp_spiffs_write d addr size src ram).2.flash (addr + i) =
      ram (add32 src i) := by
  intro i hi
  by_cases h3 : addr + 3 < 4294967296
  · rw [write_bytes_low d addr size src ram h3 hs hsrc hok i hi, her i hi, ff_and]
  · rw [write_bytes_top d addr size src ram (by omega) hs hsrc hok i hi, her i hi, ff_and]

/-- Scenario A: `write(2, 4, [AA, BB, CC, DD])` on an erased flash leaves
bytes 0..7 = `FF FF AA BB CC DD FF FF`. -/
theorem scenario_A_bytes_written :
    (esp_spiffs_write erasedDevice 2 4 2000 scenarioARam).1 = SPIFFS_OK ∧
    (∀ i, i < 4 → (esp_spiffs_write erasedDevice 2 4 2000 scenarioARam).2.flash (2 + i) =
      scenarioARam (add32 2000 i)) ∧
    (List.range 8).map (esp_spiffs_write erasedDevice 2 4 2000 scenarioARam).2.flash =
      [0xFF, 0xFF, 0xAA, 0xBB, 0xCC, 0xDD, 0xFF, 0xFF] :=
  ⟨by decide,
    write_on_erased_flash erasedDevice 2 4 2000 scenarioARam (by decide)
      (Or.inr (by decide)) (fun _ _ => rfl) (by decide),
    by decide⟩

/-- C3, the code at the failing input: 519 bytes `AA` are written at flash
address 1 of an erased flash from the word-aligned source pointer 2000.  The
interior `[4, 520)` has 516 bytes and its source pointer `src + 3` is not
word-aligned, so the staging loop runs; its second chunk is copied from
`srcLeftover + 4 * 512`, past the source buffer.  The call returns
`SPIFFS_OK`, the flash byte at `1 + 514` (end of the first chunk) holds
`data[514] = AA`, and the flash byte at `1 + 515 = 516` holds `00` where
`data[515]` is `AA`. -/
theorem aligned_source_write_loses_second_chunk :
    2000 % 4 = 0 ∧ 1 + 519 < 4294967296 ∧
    (∀ i, i < 519 → alignedSourceRam (add32 2000 i) = 0xAA) ∧
    (∀ a, erasedDevice.flash a = 255) ∧
    (esp_spiffs_write erasedDevice 1 519 2000 alignedSourceRam).1 = SPIFFS_OK ∧
    (esp_spiffs_write erasedDevice 1 519 2000 alignedSourceRam).2.flash (1 + 514) = 0xAA ∧
    (esp_spiffs_write erasedDevice 1 519 2000 alignedSourceRam).2.flash (1 + 515) = 0 ∧
    alignedSourceRam (add32 2000 515) = 0xAA := by
  refine ⟨by decide, by decide, ?_, fun _ => rfl, by decide, by decide, by decide, by decide⟩
  intro i hi
  have h : add32 2000 i = 2000 + i := add32_of_lt _ _ (by omega)
  rw [h]
  unfold alignedSourceRam
  rw [if_pos (by omega)]

/-- C4, the claim as stated fails at `addr = 0xFFFFFFFD`, `size = 1`:
`(addr + 3) & ~3` wraps to 0, the interior is taken to be
`[0, 0xFFFFFFFC)` and is programmed from the source, so the flash byte at
address 0, outside `[addr, addr + size)`, changes from `FF` to `00`. -/
theorem frame_broken_at_top_of_address_space :
    4294967293 + 1 < 4294967296 ∧
    ¬(4294967293 ≤ 0 ∧ 0 < 4294967293 + 1) ∧
    erasedDevice.flash 0 = 255 ∧
    (esp_spiffs_write erasedDevice 4294967293 1 1 zeroRam).2.flash 0 = 0 := by
  decide

/-- The amended C4 at `write(2, 4, [AA, BB, CC, DD])` on the flash
`01 02 .. 08`: the byte at address 1, in the word of the leading edge, keeps
its value `02`. -/
theorem neighbour_byte_kept :
    (2 + 3 < 4294967296 ∧ 2 + 4 < 4294967296 ∧ ¬(2 ≤ 1 ∧ 1 < 2 + 4)) ∧
    (esp_spiffs_write scenarioBDevice 2 4 2000 scenarioARam).2.flash 1 =
      scenarioBDevice.flash 1 :=
  ⟨by decide,
    write_keeps_bytes_outside scenarioBDevice 2 4 2000 scenarioARam (by decide) (by decide) 1 (by decide)⟩

/-- C5, the code at the failing input: 516 bytes `AA` written at flash
address 0, once from the unaligned pointer 2001 (staging loop), once from the
word-aligned pointer 3000 (bulk write).  Both calls return `SPIFFS_OK`.  The
second chunk of the staging loop is copied from `srcLeftover + 4 * 512`, past
the source buffer, so flash byte 512 ends as `00` where the bulk write leaves
`AA`. -/
theorem staging_differs_from_bulk :
    (∀ i, i < 516 → stagingRam (2001 + i) = stagingRam (3000 + i)) ∧
    (esp_spiffs_write erasedDevice 0 516 2001 stagingRam).1 = SPIFFS_OK ∧
    (esp_spiffs_write erasedDevice 0 516 3000 stagingRam).1 = SPIFFS_OK ∧
    (esp_spiffs_write erasedDevice 0 516 2001 stagingRam).2.flash 512 = 0 ∧
    (esp_spiffs_write erasedDevice 0 516 3000 stagingRam).2.flash 512 = 0xAA := by
  refine ⟨?_, by decide, by decide, by decide, by decide⟩
  intro i hi
  unfold stagingRam
  rw [if_pos (by omega), if_pos (by omega)]

/-! ## Claims on `esp_spiffs_read` -/

/-- C2, the code at the failing input (Scenario B): with flash bytes
0..7 = `01 .. 08`, `esp_spiffs_read(1, 6, dst)` returns `SPIFFS_OK` and the
destination holds `stk 4, stk 5, stk 6, 05, 06, 07`: its first three bytes are
the stack bytes that follow `tmp`, not the flash bytes `02 03 04`. -/
theorem read_scenario_B_leading_bytes (ram stk : Nat → Byte) :
    (esp_spiffs_read scenarioBDevice 1 6 1000 ram stk).1 = SPIFFS_OK ∧
    (List.range 6).map (fun i => (esp_spiffs_read scenarioBDevice 1 6 1000 ram stk).2.1
      (add32 1000 i)) = [stk 4, stk 5, stk 6, 5, 6, 7] :=
  ⟨rfl, rfl⟩

/-- C1, the code at the failing input: the six bytes `11 22 33 44 55 66` are
written at flash address 1 of an erased flash and read back.  Both calls
return `SPIFFS_OK`, the flash holds the six bytes, and the destination holds
`stk 4, stk 5, stk 6, 44, 55, 66`: the first three bytes come from the stack,
not from the flash. -/
theorem roundtrip_loses_leading_bytes (ram stk : Nat → Byte) :
    (esp_spiffs_write erasedDevice 1 6 2000 sixBytesRam).1 = SPIFFS_OK ∧
    (List.range 6).map (fun i =>
      (esp_spiffs_write erasedDevice 1 6 2000 sixBytesRam).2.flash (1 + i)) =
      [0x11, 0x22, 0x33, 0x44, 0x55, 0x66] ∧
    (esp_spiffs_read (esp_spiffs_write erasedDevice 1 6 2000 sixBytesRam).2 1 6 1000 ram
      stk).1 = SPIFFS_OK ∧
    (List.range 6).map (fun i =>
      (esp_spiffs_read (esp_spiffs_write erasedDevice 1 6 2000 sixBytesRam).2 1 6 1000 ram
        stk).2.1 (add32 1000 i)) = [stk 4, stk 5, stk 6, 0x44, 0x55, 0x66] :=
  ⟨by decide, by decide, rfl, rfl⟩

/-! ## Claims on `esp_spiffs_erase` -/

/-- C8. For every `addr` and `size` (32-bit values) and every pattern of
device failures, `esp_spiffs_erase(addr, size)` issues exactly
`size / SPI_FLASH_SEC_SIZE` device calls, all of them
`sdk_spi_flash_erase_sector`, the `i`-th for sector
`addr / SPI_FLASH_SEC_SIZE + i`, in ascending order. -/
theorem erase_call_sequence (d : Device) (addr size : Nat)
    (ha : addr < 4294967296) (hs : size < 4294967296) :
    (esp_spiffs_erase d addr size).2.log.map LogEntry.call =
      d.log.map LogEntry.call ++
        (List.range (size / SPI_FLASH_SEC_SIZE)).map
          (fun i => DevCall.erase (addr / SPI_FLASH_SEC_SIZE + i)) := by
  unfold esp_spiffs_erase
  simp only []
  rw [eraseLoop_calls]
  congr 1
  apply List.map_congr_left
  intro i hi
  have hi2 : i < size / SPI_FLASH_SEC_SIZE := List.mem_range.mp hi
  congr 1
  unfold SPI_FLASH_SEC_SIZE at hi2 ⊢
  unfold add32
  omega

/-- Scenario C: `erase(0, 8192)` issues the calls for sector 0, then sector 1,
and nothing else. -/
theorem scenario_C_calls :
    (0 < 4294967296 ∧ 8192 < 4294967296) ∧
    (esp_spiffs_erase erasedDevice 0 8192).2.log.map LogEntry.call =
      [DevCall.erase 0, DevCall.erase 1] :=
  ⟨⟨by decide, by decide⟩,
    (erase_call_sequence erasedDevice 0 8192 (by decide) (by decide)).trans (by decide)⟩

/-- C9. With every device call succeeding, for sector-aligned `addr` and
`size` with `addr + size` below `2 ^ 32`, `esp_spiffs_erase(addr, size)`
followed by `esp_spiffs_read(addr, size, dst)` returns `SPIFFS_OK` twice and
leaves `0xFF` in each of the `size` bytes of the destination. -/
theorem erase_then_read_ff (d : Device) (addr size dst : Nat) (ram stk : Nat → Byte)
    (ha : addr % SPI_FLASH_SEC_SIZE = 0) (hz : size % SPI_FLASH_SEC_SIZE = 0)
    (hs : addr + size < 4294967296) (hok : ∀ k, d.fails k = false) :
    (esp_spiffs_erase d addr size).1 = SPIFFS_OK ∧
    (esp_spiffs_read (esp_spiffs_erase d addr size).2 addr size dst ram stk).1 = SPIFFS_OK ∧
    ∀ i, i < size →
      (esp_spiffs_read (esp_spiffs_erase d addr size).2 addr size dst ram stk).2.1
        (add32 dst i) = 255 := by
  unfold SPI_FLASH_SEC_SIZE at ha hz
  have hok2 : ∀ k, (esp_spiffs_erase d addr size).2.fails k = false := by
    intro k
    unfold esp_spiffs_erase
    simp only []
    rw [eraseLoop_fails]; exact hok k
  obtain ⟨h1, h2⟩ := read_aligned_start (esp_spiffs_erase d addr size).2 addr size dst ram stk
    (by omega) hs hok2
  refine ⟨rfl, h1, ?_⟩
  intro i hi
  rw [h2 i hi]
  unfold esp_spiffs_erase
  simp only []
  rw [eraseLoop_flash _ _ _ hok, if_pos]
  refine ⟨i / 4096, ?_, ?_⟩
  · unfold SPI_FLASH_SEC_SIZE; omega
  · unfold SPI_FLASH_SEC_SIZE add32; omega

/-- The witness of C9: `addr = 0`, `size = SPI_FLASH_SEC_SIZE`, on a flash
full of zero bytes. -/
theorem first_sector_reads_ff :
    (0 % SPI_FLASH_SEC_SIZE = 0 ∧ SPI_FLASH_SEC_SIZE % SPI_FLASH_SEC_SIZE = 0 ∧
      0 + SPI_FLASH_SEC_SIZE < 4294967296) ∧
    ((esp_spiffs_erase ⟨fun _ => 0, fun _ => false, []⟩ 0 SPI_FLASH_SEC_SIZE).1 = SPIFFS_OK ∧
    (esp_spiffs_read (esp_spiffs_erase ⟨fun _ => 0, fun _ => false, []⟩ 0
        SPI_FLASH_SEC_SIZE).2 0 SPI_FLASH_SEC_SIZE 1000 zeroRam zeroRam).1 = SPIFFS_OK ∧
    ∀ i, i < SPI_FLASH_SEC_SIZE →
      (esp_spiffs_read (esp_spiffs_erase ⟨fun _ => 0, fun _ => false, []⟩ 0
        SPI_FLASH_SEC_SIZE).2 0 SPI_FLASH_SEC_SIZE 1000 zeroRam zeroRam).2.1
        (add32 1000 i) = 255) :=
  ⟨by decide,
    erase_then_read_ff ⟨fun _ => 0, fun _ => false, []⟩ 0 SPI_FLASH_SEC_SIZE 1000 zeroRam
      zeroRam (by decide) (by decide) (by decide) (fun _ => rfl)⟩

/-- C10, the code at the failing input: on a device whose every call fails,
`esp_spiffs_erase(0, 4096)` issues one sector erase, which fails, and returns
`SPIFFS_OK` all the same. -/
theorem erase_ignores_device_failure :
    (esp_spiffs_erase failingDevice 0 4096).2.log = [⟨DevCall.erase 0, false⟩] ∧
    (esp_spiffs_erase failingDevice 0 4096).1 = SPIFFS_OK := by
  decide

/-! ## Zero-size requests -/

/-- C7, the claim as stated fails at `addr = 1`: `esp_spiffs_read(1, 0, dst)`
issues a device read of the word at 0 and stores three bytes at `dst`, and
`esp_spiffs_write(1, 0, src)` issues a device write of the word at 0. -/
theorem unaligned_zero_size_touches_device :
    (esp_spiffs_read erasedDevice 1 0 1000 zeroRam (fun _ => 119)).2.2.log =
      [⟨DevCall.read 0 4, true⟩] ∧
    (esp_spiffs_read erasedDevice 1 0 1000 zeroRam (fun _ => 119)).2.1 1000 ≠ zeroRam 1000 ∧
    (esp_spiffs_write erasedDevice 1 0 2000 zeroRam).2.log =
      [⟨DevCall.write 0 [255, 255, 255, 255], true⟩] := by
  decide

/-- C7 as amended. For every word-aligned `addr`, `esp_spiffs_read(addr, 0)`
and `esp_spiffs_write(addr, 0)` return `SPIFFS_OK`, leave the device as it
was (no device call is logged) and, for the read, leave the RAM as it was;
`esp_spiffs_erase(eaddr, 0)` does so for every `eaddr`. -/
theorem zero_size_noop (d : Device) (addr eaddr p : Nat) (ram stk : Nat → Byte)
    (ha : addr < 4294967296) (hal : addr % 4 = 0) :
    esp_spiffs_read d addr 0 p ram stk = (SPIFFS_OK, ram, d) ∧
    esp_spiffs_write d addr 0 p ram = (SPIFFS_OK, d) ∧
    esp_spiffs_erase d eaddr 0 = (SPIFFS_OK, d) := by
  have hB : alignedBegin addr = addr := by rw [alignedBegin_eq]; omega
  have hE : alignedEnd addr 0 = addr := by rw [alignedEnd_eq]; split <;> omega
  have hA : add32 addr 0 = addr := by unfold add32; omega
  refine ⟨?_, ?_, ?_⟩
  · simp [esp_spiffs_read, readLeading, readInterior, readTrailing, hB, hE, hA]
  · simp [esp_spiffs_write, writeLeading, writeInterior, writeTrailing, hB, hE, hA]
  · simp [esp_spiffs_erase, eraseLoop, SPI_FLASH_SEC_SIZE]

/-- The amended C7 at `addr = 4`, `eaddr = 1`. -/
theorem aligned_zero_size_at_4 :
    (4 < 4294967296 ∧ 4 % 4 = 0) ∧
    (esp_spiffs_read erasedDevice 4 0 1000 zeroRam zeroRam = (SPIFFS_OK, zeroRam, erasedDevice) ∧
     esp_spiffs_write erasedDevice 4 0 1000 zeroRam = (SPIFFS_OK, erasedDevice) ∧
     esp_spiffs_erase erasedDevice 1 0 = (SPIFFS_OK, erasedDevice)) :=
  ⟨by decide, zero_size_noop erasedDevice 4 1 1000 zeroRam zeroRam (by decide) (by decide)⟩

/-! ## The device calls of the steps -/

theorem issued_of_log {d e : Device} {l : List LogEntry} (h : e.log = d.log ++ l) :
    issued d e = l := by
  unfold issued; rw [h]; simp

theorem window_basic (addr size : Nat) :
    alignedBegin addr % 4 = 0 ∧ alignedEnd addr size % 4 = 0 ∧
    alignedBegin addr ≤ alignedEnd addr size ∧ alignedEnd addr size < 4294967296 := by
  have hB := alignedBegin_eq addr
  have hE := alignedEnd_eq addr size
  rw [← hB] at hE
  refine ⟨by omega, ?_, ?_, ?_⟩
  · rw [hE]; split <;> omega
  · rw [hE]; split <;> omega
  · rw [hE]; split <;> omega

theorem readLeading_dev_eq (d : Device) (addr size dst : Nat) (ram stk : Nat → Byte) :
    (readLeading d addr size dst ram stk).2.2 =
      if addr < alignedBegin addr then
        (sdk_spi_flash_read d (sub32 (alignedEnd addr size) 4) 4).1
      else d := by
  unfold readLeading
  split
  · simp only []
    split <;> rfl
  · rfl

theorem readInterior_dev_eq (d : Device) (addr size dst : Nat) (ram : Nat → Byte) :
    (readInterior d addr size dst ram).2.2 =
      if alignedEnd addr size ≠ alignedBegin addr then
        (sdk_spi_flash_read d (alignedBegin addr)
          (sub32 (alignedEnd addr size) (alignedBegin addr))).1
      else d := by
  unfold readInterior
  split
  · simp only []
    split <;> rfl
  · rfl

theorem readTrailing_dev_eq (d : Device) (addr size dst : Nat) (ram : Nat → Byte) :
    (readTrailing d addr size dst ram).2.2 =
      if add32 addr size > alignedEnd addr size then
        (sdk_spi_flash_read d (alignedEnd addr size) 4).1
      else d := by
  unfold readTrailing
  split
  · simp only []
    split <;> rfl
  · rfl

/-- The device left by `esp_spiffs_read` is the one left by its last step
run: the leading or the interior step when it failed, the trailing step
otherwise. -/
theorem read_dev_cases (d : Device) (addr size dst : Nat) (ram stk : Nat → Byte) :
    ((readLeading d addr size dst ram stk).1 = false ∧
      (esp_spiffs_read d addr size dst ram stk).2.2 =
        (readLeading d addr size dst ram stk).2.2) ∨
    ((readInterior (readLeading d addr size dst ram stk).2.2 addr size dst
        (readLeading d addr size dst ram stk).2.1).1 = false ∧
      (esp_spiffs_read d addr size dst ram stk).2.2 =
        (readInterior (readLeading d addr size dst ram stk).2.2 addr size dst
          (readLeading d addr size dst ram stk).2.1).2.2) ∨
    (esp_spiffs_read d addr size dst ram stk).2.2 =
      (readTrailing (readInterior (readLeading d addr size dst ram stk).2.2 addr size dst
        (readLeading d addr size dst ram stk).2.1).2.2 addr size dst
        (readInterior (readLeading d addr size dst ram stk).2.2 addr size dst
          (readLeading d addr size dst ram stk).2.1).2.1).2.2 := by
  unfold esp_spiffs_read
  simp only []
  split
  · rename_i h; left; exact ⟨h, rfl⟩
  · split
    · rename_i h; right; left; exact ⟨h, rfl⟩
    · right; right; split <;> rfl

/-- The device left by `esp_spiffs_write` is the one left by its last step run. -/
theorem write_dev_cases (d : Device) (addr size src : Nat) (ram : Nat → Byte) :
    (esp_spiffs_write d addr size src ram).2 = (writeLeading d addr size src ram).2 ∨
    (esp_spiffs_write d addr size src ram).2 =
      (writeInterior (writeLeading d addr size src ram).2 addr size src ram).2 ∨
    (esp_spiffs_write d addr size src ram).2 =
      (writeTrailing (writeInterior (writeLeading d addr size src ram).2 addr size src ram).2
        addr size src ram).2 := by
  unfold esp_spiffs_write
  simp only []
  split
  · left; rfl
  · split
    · right; left; rfl
    · right; right; split <;> rfl

theorem callsSatisfy_refl (P : DevCall → Prop) (d : Device) : CallsSatisfy P d d :=
  ⟨[], by simp, by simp⟩

theorem callsSatisfy_trans {P : DevCall → Prop} {d e g : Device}
    (h1 : CallsSatisfy P d e) (h2 : CallsSatisfy P e g) : CallsSatisfy P d g := by
  obtain ⟨l1, a1, a2⟩ := h1
  obtain ⟨l2, b1, b2⟩ := h2
  refine ⟨l1 ++ l2, by rw [b1, a1, List.append_assoc], ?_⟩
  intro x hx
  rcases List.mem_append.mp hx with h | h
  · exact a2 x h
  · exact b2 x h

theorem callsSatisfy_read {P : DevCall → Prop} (d : Device) (a len : Nat)
    (h : P (DevCall.read a len)) : CallsSatisfy P d (sdk_spi_flash_read d a len).1 :=
  ⟨_, read_log d a len, by
    intro x hx
    rw [List.mem_singleton] at hx
    subst hx
    exact h⟩

theorem callsSatisfy_write {P : DevCall → Prop} (d : Device) (a : Nat) (data : Nat → Byte)
    (len : Nat) (h : P (DevCall.write a ((List.range len).map data))) :
    CallsSatisfy P d (sdk_spi_flash_write d a data len).1 :=
  ⟨_, write_log d a data len, by
    intro x hx
    rw [List.mem_singleton] at hx
    subst hx
    exact h⟩

theorem readLeading_granular (d : Device) (addr size dst : Nat) (ram stk : Nat → Byte) :
    CallsSatisfy wordGranular d (readLeading d addr size dst ram stk).2.2 := by
  obtain ⟨hB, hE, hBE, hEM⟩ := window_basic addr size
  rw [readLeading_dev_eq]
  split
  · apply callsSatisfy_read
    have h4 : sub32 (alignedEnd addr size) 4 = alignedEnd addr size - 4 :=
      sub32_of_le _ _ (by omega) hEM
    rw [h4]
    exact ⟨by omega, by decide, by decide⟩
  · exact callsSatisfy_refl _ _

theorem readInterior_granular (d : Device) (addr size dst : Nat) (ram : Nat → Byte) :
    CallsSatisfy wordGranular d (readInterior d addr size dst ram).2.2 := by
  obtain ⟨hB, hE, hBE, hEM⟩ := window_basic addr size
  rw [readInterior_dev_eq]
  split
  · apply callsSatisfy_read
    rw [sub32_of_le _ _ hBE hEM]
    exact ⟨hB, by omega, by omega⟩
  · exact callsSatisfy_refl _ _

theorem readTrailing_granular (d : Device) (addr size dst : Nat) (ram : Nat → Byte) :
    CallsSatisfy wordGranular d (readTrailing d addr size dst ram).2.2 := by
  obtain ⟨hB, hE, hBE, hEM⟩ := window_basic addr size
  rw [readTrailing_dev_eq]
  split
  · apply callsSatisfy_read
    exact ⟨hE, by decide, by decide⟩
  · exact callsSatisfy_refl _ _

theorem writeLeading_granular (d : Device) (addr size src : Nat) (ram : Nat → Byte) :
    CallsSatisfy wordGranular d (writeLeading d addr size src ram).2 := by
  obtain ⟨hB, hE, hBE, hEM⟩ := window_basic addr size
  unfold writeLeading
  split
  · apply callsSatisfy_write
    have h4 : sub32 (alignedBegin addr) 4 = alignedBegin addr - 4 :=
      sub32_of_le _ _ (by omega) (by omega)
    rw [h4]
    exact ⟨by omega, by simp, by simp⟩
  · exact callsSatisfy_refl _ _

theorem writeTrailing_granular (d : Device) (addr size src : Nat) (ram : Nat → Byte) :
    CallsSatisfy wordGranular d (writeTrailing d addr size src ram).2 := by
  obtain ⟨hB, hE, hBE, hEM⟩ := window_basic addr size
  unfold writeTrailing
  split
  · apply callsSatisfy_write
    exact ⟨hE, by simp, by simp⟩
  · exact callsSatisfy_refl _ _

theorem willCopy_mod (n : Nat) (h : n % 4 = 0) : willCopy n % 4 = 0 := by
  unfold willCopy UNALIGNED_WRITE_BUFFER_SIZE
  split <;> omega

theorem stagingLoop_granular (ram : Nat → Byte) (fuel : Nat) :
    ∀ (sizeLeft srcLeftover aBegin : Nat) (d : Device),
      sizeLeft % 4 = 0 → aBegin % 4 = 0 → sizeLeft < 4294967296 →
      CallsSatisfy wordGranular d (stagingLoop ram fuel sizeLeft srcLeftover aBegin d).2 := by
  induction fuel with
  | zero => intro _ _ _ d _ _ _; exact callsSatisfy_refl _ _
  | succ n ih =>
    intro sizeLeft srcLeftover aBegin d hs ha hlt
    obtain ⟨hw1, hw2, hw3⟩ := willCopy_le sizeLeft
    have hw4 := willCopy_mod sizeLeft hs
    unfold stagingLoop
    split
    · exact callsSatisfy_refl _ _
    · rename_i hne
      have hw5 := hw3 (by omega)
      have hfirst : CallsSatisfy wordGranular d
          (sdk_spi_flash_write d aBegin (bytesAt ram srcLeftover) (willCopy sizeLeft)).1 :=
        callsSatisfy_write _ _ _ _ ⟨ha, by simpa using hw4, by simpa using hw5⟩
      simp only []
      split
      · exact hfirst
      · refine callsSatisfy_trans hfirst (ih _ _ _ _ ?_ ?_ ?_)
        · rw [sub32_of_le _ _ hw1 hlt]; omega
        · unfold add32; omega
        · rw [sub32_of_le _ _ hw1 hlt]; omega

theorem writeInterior_granular (d : Device) (addr size src : Nat) (ram : Nat → Byte) :
    CallsSatisfy wordGranular d (writeInterior d addr size src ram).2 := by
  obtain ⟨hB, hE, hBE, hEM⟩ := window_basic addr size
  have hlen : sub32 (alignedEnd addr size) (alignedBegin addr) =
      alignedEnd addr size - alignedBegin addr := sub32_of_le _ _ hBE hEM
  unfold writeInterior
  split
  · simp only []
    rw [hlen]
    split
    · apply callsSatisfy_write
      refine ⟨hB, ?_, ?_⟩
      · simp only [List.length_map, List.length_range]; omega
      · simp only [List.length_map, List.length_range]; omega
    · exact stagingLoop_granular _ _ _ _ _ _ (by omega) hB (by omega)
  · exact callsSatisfy_refl _ _

/-- C12. For every request and every source or destination pointer, whatever
device calls fail, each device read issued by `esp_spiffs_read` and each
device write issued by `esp_spiffs_write` has a flash address that is a
multiple of 4 and a byte count that is a non-zero multiple of 4; and where
the leading step runs (`addr < alignedBegin`), `alignedBegin` and
`alignedEnd` are at least 4, so that the address of the leading word is
computed without wrapping below zero. -/
theorem device_calls_word_granular (d : Device) (addr size p : Nat) (ram stk : Nat → Byte) :
    (∀ x ∈ issued d (esp_spiffs_read d addr size p ram stk).2.2, wordGranular x.call) ∧
    (∀ x ∈ issued d (esp_spiffs_write d addr size p ram).2, wordGranular x.call) ∧
    (addr < alignedBegin addr →
      4 ≤ alignedBegin addr ∧ 4 ≤ alignedEnd addr size ∧
      sub32 (alignedBegin addr) 4 = alignedBegin addr - 4 ∧
      sub32 (alignedEnd addr size) 4 = alignedEnd addr size - 4) := by
  obtain ⟨hB, hE, hBE, hEM⟩ := window_basic addr size
  have r1 := readLeading_granular d addr size p ram stk
  have r2 := readInterior_granular (readLeading d addr size p ram stk).2.2 addr size p
    (readLeading d addr size p ram stk).2.1
  have r3 := readTrailing_granular
    (readInterior (readLeading d addr size p ram stk).2.2 addr size p
      (readLeading d addr size p ram stk).2.1).2.2 addr size p
    (readInterior (readLeading d addr size p ram stk).2.2 addr size p
      (readLeading d addr size p ram stk).2.1).2.1
  have w1 := writeLeading_granular d addr size p ram
  have w2 := writeInterior_granular (writeLeading d addr size p ram).2 addr size p ram
  have w3 := writeTrailing_granular
    (writeInterior (writeLeading d addr size p ram).2 addr size p ram).2 addr size p ram
  have hR : CallsSatisfy wordGranular d (esp_spiffs_read d addr size p ram stk).2.2 := by
    rcases read_dev_cases d addr size p ram stk with ⟨_, h⟩ | ⟨_, h⟩ | h
    · rw [h]; exact r1
    · rw [h]; exact callsSatisfy_trans r1 r2
    · rw [h]; exact callsSatisfy_trans (callsSatisfy_trans r1 r2) r3
  have hW : CallsSatisfy wordGranular d (esp_spiffs_write d addr size p ram).2 := by
    rcases write_dev_cases d addr size p ram with h | h | h
    · rw [h]; exact w1
    · rw [h]; exact callsSatisfy_trans w1 w2
    · rw [h]; exact callsSatisfy_trans (callsSatisfy_trans w1 w2) w3
  refine ⟨?_, ?_, ?_⟩
  · obtain ⟨l, h1, h2⟩ := hR
    rw [issued_of_log h1]; exact h2
  · obtain ⟨l, h1, h2⟩ := hW
    rw [issued_of_log h1]; exact h2
  · intro h
    exact ⟨by omega, by omega, sub32_of_le _ _ (by omega) (by omega),
      sub32_of_le _ _ (by omega) hEM⟩

/-! ## The passes of the staging loop -/

theorem bytesAt_add32 (ram : Nat → Byte) (p x y : Nat) :
    bytesAt ram (add32 (add32 p x) y) = bytesAt ram (add32 p (x + y)) := by
  funext i
  unfold bytesAt
  congr 1
  unfold add32; omega

theorem bytesAt_add32_zero (ram : Nat → Byte) (p : Nat) :
    bytesAt ram (add32 p 0) = bytesAt ram p := by
  funext i
  unfold bytesAt
  congr 1
  unfold add32; omega

theorem map_range_succ {α : Type} (f : Nat → α) (m : Nat) :
    (List.range (m + 1)).map f = f 0 :: (List.range m).map (fun k => f (k + 1)) := by
  rw [List.range_succ_eq_map, List.map_cons, List.map_map]
  rfl

/-- With every device write succeeding, a staging loop allowed at least
`sizeLeft` passes succeeds and logs `ceil(sizeLeft / 512)` chunks. -/
theorem stagingLoop_log (ram : Nat → Byte) (fuel : Nat) :
    ∀ (sizeLeft srcLeftover aBegin : Nat) (d : Device),
      sizeLeft ≤ fuel → aBegin + sizeLeft < 4294967296 → (∀ k, d.fails k = false) →
      (stagingLoop ram fuel sizeLeft srcLeftover aBegin d).1 = true ∧
      (stagingLoop ram fuel sizeLeft srcLeftover aBegin d).2.fails = d.fails ∧
      (stagingLoop ram fuel sizeLeft srcLeftover aBegin d).2.log =
        d.log ++ (List.range ((sizeLeft + 511) / 512)).map
          (stagingChunk ram sizeLeft srcLeftover aBegin) := by
  induction fuel with
  | zero =>
    intro sizeLeft srcLeftover aBegin d h _ _
    have h0 : sizeLeft = 0 := by omega
    subst h0
    exact ⟨rfl, rfl, by simp [stagingLoop]⟩
  | succ n ih =>
    intro sizeLeft srcLeftover aBegin d hle hb hok
    unfold stagingLoop
    split
    · rename_i h0
      subst h0
      exact ⟨rfl, rfl, by simp⟩
    · rename_i hne
      obtain ⟨hw1, hw2, hw3⟩ := willCopy_le sizeLeft
      have hw5 := hw3 (by omega)
      have hwv : willCopy sizeLeft = min 512 sizeLeft := by
        unfold willCopy UNALIGNED_WRITE_BUFFER_SIZE; split <;> omega
      have hr : (sdk_spi_flash_write d aBegin (bytesAt ram srcLeftover)
          (willCopy sizeLeft)).2 = true := by
        rw [write_ok, hok]; rfl
      have hfl := write_fails d aBegin (bytesAt ram srcLeftover) (willCopy sizeLeft)
      have hlog := write_log d aBegin (bytesAt ram srcLeftover) (willCopy sizeLeft)
      rw [hok] at hlog
      simp only []
      rw [if_neg (by simp [hr])]
      have hsub : sub32 sizeLeft (willCopy sizeLeft) = sizeLeft - willCopy sizeLeft :=
        sub32_of_le _ _ hw1 (by omega)
      have hadd : add32 aBegin (willCopy sizeLeft) = aBegin + willCopy sizeLeft :=
        add32_of_lt _ _ (by omega)
      by_cases hlast : sizeLeft ≤ 512
      · -- one chunk, then the loop ends
        have hwc : willCopy sizeLeft = sizeLeft := by omega
        have hz : sub32 sizeLeft (willCopy sizeLeft) = 0 := by rw [hsub]; omega
        rw [hz]
        have hstop : ∀ q b e, stagingLoop ram n 0 q b e = (true, e) := by
          intro q b e
          cases n with
          | zero => rfl
          | succ m => unfold stagingLoop; simp
        rw [hstop]
        refine ⟨rfl, hfl, ?_⟩
        simp only []
        rw [hlog]
        have hn : (sizeLeft + 511) / 512 = 1 := by omega
        have hr1 : List.range 1 = [0] := rfl
        have hm : min 512 sizeLeft = sizeLeft := by omega
        rw [hn, hr1, hwc]
        simp only [List.map_cons, List.map_nil, stagingChunk, Nat.mul_zero,
          Nat.add_zero, Nat.sub_zero, Bool.not_false, bytesAt_add32_zero, hm]
      · have hwc : willCopy sizeLeft = 512 := by omega
        rw [hsub, hadd, hwc]
        rw [hwc] at hlog hfl hr
        obtain ⟨i1, i2, i3⟩ := ih (sizeLeft - 512) (add32 srcLeftover (4 * 512)) (aBegin + 512)
          (sdk_spi_flash_write d aBegin (bytesAt ram srcLeftover) 512).1
          (by omega) (by omega) (by rw [hfl]; exact hok)
        refine ⟨i1, by rw [i2, hfl], ?_⟩
        rw [i3, hlog]
        have hn : (sizeLeft + 511) / 512 = (sizeLeft - 512 + 511) / 512 + 1 := by omega
        have hm : min 512 sizeLeft = 512 := by omega
        have hhead : stagingChunk ram sizeLeft srcLeftover aBegin 0 =
            ⟨DevCall.write aBegin ((List.range 512).map (bytesAt ram srcLeftover)), !false⟩ := by
          simp only [stagingChunk, Nat.mul_zero, Nat.add_zero, Nat.sub_zero, Bool.not_false,
            bytesAt_add32_zero, hm]
        have htail : (List.range ((sizeLeft - 512 + 511) / 512)).map
            (fun k => stagingChunk ram sizeLeft srcLeftover aBegin (k + 1)) =
            (List.range ((sizeLeft - 512 + 511) / 512)).map
              (stagingChunk ram (sizeLeft - 512) (add32 srcLeftover (4 * 512)) (aBegin + 512)) := by
          apply List.map_congr_left
          intro k _
          simp only [stagingChunk]
          have e1 : aBegin + 512 + 512 * k = aBegin + 512 * (k + 1) := by omega
          have e2 : sizeLeft - 512 - 512 * k = sizeLeft - 512 * (k + 1) := by omega
          have e3 : bytesAt ram (add32 (add32 srcLeftover (4 * 512)) (2048 * k)) =
              bytesAt ram (add32 srcLeftover (2048 * (k + 1))) := by
            rw [bytesAt_add32]
            have e4 : 4 * 512 + 2048 * k = 2048 * (k + 1) := by omega
            rw [e4]
          rw [e1, e2, e3]
        rw [hn, map_range_succ (stagingChunk ram sizeLeft srcLeftover aBegin)
          ((sizeLeft - 512 + 511) / 512), List.append_assoc, hhead, htail,
          List.singleton_append]

/-- The lengths of the chunks of an interior of `len` bytes add up to `len`. -/
theorem chunk_lengths_sum (n : Nat) :
    ∀ len, (len + 511) / 512 = n →
      ((List.range n).map (fun k => min 512 (len - 512 * k))).sum = len := by
  induction n with
  | zero => intro len h; simp; omega
  | succ m ih =>
    intro len h
    rw [map_range_succ, List.sum_cons]
    have h2 := ih (len - 512) (by omega)
    have h3 : (List.range m).map (fun k => min 512 (len - 512 * (k + 1))) =
        (List.range m).map (fun k => min 512 (len - 512 - 512 * k)) := by
      apply List.map_congr_left
      intro k _
      have : len - 512 * (k + 1) = len - 512 - 512 * k := by omega
      simp only [this]
    rw [h3, h2]
    simp only [Nat.mul_zero, Nat.sub_zero]
    omega

theorem stagingLoop_more_passes (ram : Nat → Byte) (len p a : Nat) (d : Device)
    (hlen : len < 4294967296) (n : Nat) :
    stagingLoop ram (len + n) len p a d = stagingLoop ram len len p a d := by
  induction n with
  | zero => rfl
  | succ m ih =>
    rw [← ih]
    exact stagingLoop_bound_enough ram (len + m) len p a d (by omega) hlen

/-- C17. When `esp_spiffs_write` takes the staging branch (non-empty interior
of `L = alignedEnd - alignedBegin` bytes, interior source pointer not
word-aligned) and every device write succeeds, the interior step succeeds
after exactly `ceil(L / 512)` device writes; the `k`-th (0-based) is addressed
to `alignedBegin + 512 * k` and has length `min 512 (L - 512 * k)`, which is
at most 512 and not 0; the lengths add up to `L`; and the loop has ended by
itself: allowing it more passes changes nothing. -/
theorem staging_chunk_sequence (d : Device) (addr size src : Nat) (ram : Nat → Byte)
    (hne : alignedEnd addr size ≠ alignedBegin addr)
    (hun : sub32 (add32 src (alignedBegin addr)) addr &&& 3 ≠ 0)
    (hok : ∀ k, d.fails k = false) :
    (writeInterior d addr size src ram).1 = true ∧
    (issued d (writeInterior d addr size src ram).2).map (fun e => writeSpan e.call) =
      (List.range ((alignedEnd addr size - alignedBegin addr + 511) / 512)).map
        (fun k => some (alignedBegin addr + 512 * k,
          min 512 (alignedEnd addr size - alignedBegin addr - 512 * k))) ∧
    (∀ e ∈ issued d (writeInterior d addr size src ram).2, e.ok = true) ∧
    (∀ k, k < (alignedEnd addr size - alignedBegin addr + 511) / 512 →
      0 < min 512 (alignedEnd addr size - alignedBegin addr - 512 * k) ∧
      min 512 (alignedEnd addr size - alignedBegin addr - 512 * k) ≤ 512) ∧
    ((List.range ((alignedEnd addr size - alignedBegin addr + 511) / 512)).map
      (fun k => min 512 (alignedEnd addr size - alignedBegin addr - 512 * k))).sum =
        alignedEnd addr size - alignedBegin addr ∧
    (∀ n, stagingLoop ram (alignedEnd addr size - alignedBegin addr + n)
        (alignedEnd addr size - alignedBegin addr)
        (sub32 (add32 src (alignedBegin addr)) addr) (alignedBegin addr) d =
      stagingLoop ram (alignedEnd addr size - alignedBegin addr)
        (alignedEnd addr size - alignedBegin addr)
        (sub32 (add32 src (alignedBegin addr)) addr) (alignedBegin addr) d) := by
  obtain ⟨hB, hE, hBE, hEM⟩ := window_basic addr size
  have hlen : sub32 (alignedEnd addr size) (alignedBegin addr) =
      alignedEnd addr size - alignedBegin addr := sub32_of_le _ _ hBE hEM
  obtain ⟨s1, _, s3⟩ := stagingLoop_log ram (alignedEnd addr size - alignedBegin addr)
    (alignedEnd addr size - alignedBegin addr) (sub32 (add32 src (alignedBegin addr)) addr)
    (alignedBegin addr) d (le_refl _) (by omega) hok
  have hW : writeInterior d addr size src ram =
      stagingLoop ram (alignedEnd addr size - alignedBegin addr)
        (alignedEnd addr size - alignedBegin addr)
        (sub32 (add32 src (alignedBegin addr)) addr) (alignedBegin addr) d := by
    unfold writeInterior
    rw [if_pos hne]
    simp only []
    rw [if_neg hun, hlen]
  rw [hW, issued_of_log s3]
  refine ⟨s1, ?_, ?_, ?_, chunk_lengths_sum _ _ rfl, ?_⟩
  · rw [List.map_map]
    apply List.map_congr_left
    intro k _
    simp [stagingChunk, writeSpan]
  · intro e he
    obtain ⟨k, _, hk⟩ := List.mem_map.mp he
    rw [← hk]
    rfl
  · intro k hk
    omega
  · intro n
    exact stagingLoop_more_passes ram _ _ _ d (by omega) n

/-- The witness of C17: 516 bytes written at flash address 0 from the
unaligned pointer 2001 go out in two chunks, 512 bytes at 0 and 4 bytes at
512. -/
theorem staging_two_chunks :
    (alignedEnd 0 516 ≠ alignedBegin 0 ∧
      sub32 (add32 2001 (alignedBegin 0)) 0 &&& 3 ≠ 0) ∧
    (issued erasedDevice (writeInterior erasedDevice 0 516 2001 zeroRam).2).map
      (fun e => writeSpan e.call) = [some (0, 512), some (512, 4)] :=
  ⟨by decide,
    (staging_chunk_sequence erasedDevice 0 516 2001 zeroRam (by decide) (by decide)
      (fun _ => rfl)).2.1.trans (by decide)⟩

/-! ## Requests inside one word -/

/-- C16, the negation of the claim: there is no request with `size < 4` whose
range lies inside one flash word `[w, w + 4)` for which both the test of the
leading step (line 33) and the test of the trailing step (line 52) succeed. -/
theorem no_double_fetch_in_one_word :
    ¬ ∃ addr size w : Nat, addr < 4294967296 ∧ size < 4 ∧ w % 4 = 0 ∧ w ≤ addr ∧
      addr + size ≤ w + 4 ∧
      addr < alignedBegin addr ∧ add32 addr size > alignedEnd addr size := by
  rintro ⟨addr, size, w, ha, hs, hw, hwa, hin, hl, ht⟩
  have hB := alignedBegin_eq addr
  have hE := alignedEnd_eq addr size
  rw [← hB] at hE
  unfold add32 at ht
  rw [hE] at ht
  split at ht <;> omega

/-- C16 as amended. For every request with `0 < size < 4` whose range lies
inside one flash word (`addr + 3` below `2 ^ 32`), `esp_spiffs_read` issues
exactly one device call, the 4-byte read of that word, whether it succeeds
or fails; the tests of the leading and of the trailing step do not both
succeed. -/
theorem one_word_read_once (d : Device) (addr size dst : Nat) (ram stk : Nat → Byte)
    (h3 : addr + 3 < 4294967296) (hpos : 0 < size) (hsz : size < 4)
    (hw : addr + size ≤ addr / 4 * 4 + 4) :
    (issued d (esp_spiffs_read d addr size dst ram stk).2.2).map LogEntry.call =
      [DevCall.read (addr / 4 * 4) 4] ∧
    ¬(addr < alignedBegin addr ∧ add32 addr size > alignedEnd addr size) := by
  have hs : addr + size < 4294967296 := by omega
  obtain ⟨hB, hE⟩ := window_facts addr size h3 hs
  have hA : add32 addr size = addr + size := add32_of_lt _ _ hs
  have hEB : alignedEnd addr size = alignedBegin addr := by omega
  have hI : ∀ (e : Device) (r : Nat → Byte), readInterior e addr size dst r = (true, r, e) := by
    intro e r
    unfold readInterior
    rw [if_neg (by simp [hEB])]
  have hcall : ∀ a, (issued d (sdk_spi_flash_read d a 4).1).map LogEntry.call =
      [DevCall.read a 4] := by
    intro a
    rw [issued_of_log (read_log d a 4)]
    rfl
  refine ⟨?_, by rw [hA]; omega⟩
  by_cases hal : addr % 4 = 0
  · -- only the trailing step runs
    have hL : readLeading d addr size dst ram stk = (true, ram, d) :=
      readLeading_aligned d addr size dst ram stk hal (by omega)
    have hfin : (esp_spiffs_read d addr size dst ram stk).2.2 =
        (sdk_spi_flash_read d (alignedEnd addr size) 4).1 := by
      rcases read_dev_cases d addr size dst ram stk with ⟨h, _⟩ | ⟨h, _⟩ | h
      · rw [hL] at h; exact absurd h (by simp)
      · rw [hL, hI] at h; exact absurd h (by simp)
      · rw [h, hL, hI, readTrailing_dev_eq, if_pos (by rw [hA]; omega)]
    have hEa : alignedEnd addr size = addr / 4 * 4 := by omega
    rw [hfin, hEa]
    exact hcall _
  · -- only the leading step runs
    have hL : (readLeading d addr size dst ram stk).2.2 =
        (sdk_spi_flash_read d (sub32 (alignedEnd addr size) 4) 4).1 := by
      rw [readLeading_dev_eq, if_pos (by omega)]
    have hT : ∀ (e : Device) (r : Nat → Byte), (readTrailing e addr size dst r).2.2 = e := by
      intro e r
      rw [readTrailing_dev_eq, if_neg (by rw [hA]; omega)]
    have hfin : (esp_spiffs_read d addr size dst ram stk).2.2 =
        (sdk_spi_flash_read d (sub32 (alignedEnd addr size) 4) 4).1 := by
      rcases read_dev_cases d addr size dst ram stk with ⟨_, h⟩ | ⟨_, h⟩ | h
      · rw [h, hL]
      · rw [h, hI, hL]
      · rw [h, hT, hI, hL]
    have hEa : sub32 (alignedEnd addr size) 4 = addr / 4 * 4 := by
      rw [sub32_of_le _ _ (by omega) (by omega)]; omega
    rw [hfin, hEa]
    exact hcall _

/-- The amended C16 for the request `(1, 2)` on the flash of Scenario B: one
device read, of the word at 0. -/
theorem read_1_2_fetches_once :
    (1 + 3 < 4294967296 ∧ 0 < 2 ∧ 2 < 4 ∧ 1 + 2 ≤ 1 / 4 * 4 + 4) ∧
    (issued scenarioBDevice (esp_spiffs_read scenarioBDevice 1 2 1000 zeroRam zeroRam).2.2).map
      LogEntry.call = [DevCall.read 0 4] :=
  ⟨by decide,
    (one_word_read_once scenarioBDevice 1 2 1000 zeroRam zeroRam (by decide) (by decide)
      (by decide) (by decide)).1⟩

/-! ## Later claims on `esp_spiffs_erase` -/

/-- C11, the code at the failing input: on a device whose first call fails,
`esp_spiffs_erase(0, 8192)` issues the erase of sector 0, which fails, and
then still issues the erase of sector 1. -/
theorem erase_continues_after_failure :
    (esp_spiffs_erase firstCallFails 0 8192).2.log =
      [⟨DevCall.erase 0, false⟩, ⟨DevCall.erase 1, true⟩] := by
  decide

/-! ## The word window -/

/-- C13, the claim as stated fails at `addr = 0xFFFFFFFD`, `size = 0`:
`addr + 3` wraps, `alignedBegin` is 0, which is below `addr`. -/
theorem alignedBegin_wraps_at_top :
    4294967293 + 0 < 4294967296 ∧ alignedBegin 4294967293 = 0 ∧
    ¬(4294967293 ≤ alignedBegin 4294967293) := by
  decide

/-- C13 as amended. For every `addr`, `size` with `addr + size` below
`2 ^ 32`: `alignedBegin` and `alignedEnd` are multiples of 4;
`alignedBegin <= alignedEnd`; `alignedEnd` is the greatest multiple of 4 that
is `<= addr + size` when that value is `>= alignedBegin`, and `alignedBegin`
otherwise; and, when `addr + 3` is below `2 ^ 32` too, `alignedBegin` is the
least multiple of 4 that is `>= addr`. -/
theorem word_window (addr size : Nat) (hs : addr + size < 4294967296) :
    alignedBegin addr % 4 = 0 ∧ alignedEnd addr size % 4 = 0 ∧
    alignedBegin addr ≤ alignedEnd addr size ∧
    ((addr + size) / 4 * 4 % 4 = 0 ∧ (addr + size) / 4 * 4 ≤ addr + size ∧
      ∀ m, m % 4 = 0 → m ≤ addr + size → m ≤ (addr + size) / 4 * 4) ∧
    (alignedBegin addr ≤ (addr + size) / 4 * 4 → alignedEnd addr size = (addr + size) / 4 * 4) ∧
    ((addr + size) / 4 * 4 < alignedBegin addr → alignedEnd addr size = alignedBegin addr) ∧
    (addr + 3 < 4294967296 →
      addr ≤ alignedBegin addr ∧ ∀ m, m % 4 = 0 → addr ≤ m → alignedBegin addr ≤ m) := by
  have hB := alignedBegin_eq addr
  have hE := alignedEnd_eq addr size
  rw [Nat.mod_eq_of_lt hs] at hE
  rw [← hB] at hE
  refine ⟨by omega, ?_, ?_, ⟨by omega, by omega, fun m h1 h2 => by omega⟩, ?_, ?_, ?_⟩
  · rw [hE]; split <;> omega
  · rw [hE]; split <;> omega
  · intro h; rw [hE]; split <;> omega
  · intro h; rw [hE]; split <;> omega
  · intro h3
    rw [Nat.mod_eq_of_lt h3] at hB
    exact ⟨by omega, fun m h1 h2 => by omega⟩

/-- The amended C13 for the request `(1, 6)` of Scenario B: the window is
`[4, 4)`. -/
theorem scenario_B_window :
    1 + 6 < 4294967296 ∧ alignedBegin 1 = 4 ∧ alignedEnd 1 6 = 4 ∧
    (1 + 3 < 4294967296 →
      1 ≤ alignedBegin 1 ∧ ∀ m, m % 4 = 0 → 1 ≤ m → alignedBegin 1 ≤ m) :=
  ⟨by decide, by decide, by decide, (word_window 1 6 (by decide)).2.2.2.2.2.2⟩

/-! ## Later claims on `esp_spiffs_read` -/

/-- C14, the code at the failing input: `esp_spiffs_read(1, 8, dst)` has
`alignedBegin = 4` and `alignedEnd = 8`; its first device read is the word at
`alignedEnd - 4 = 4`, not the word at `alignedBegin - 4 = 0` that holds the
bytes 1..3 of the request. -/
theorem read_leading_fetches_wrong_word (ram stk : Nat → Byte) :
    alignedBegin 1 = 4 ∧ alignedEnd 1 8 = 8 ∧
    (issued scenarioBDevice (esp_spiffs_read scenarioBDevice 1 8 1000 ram stk).2.2).map
      LogEntry.call = [DevCall.read 4 4, DevCall.read 4 4, DevCall.read 8 4] :=
  ⟨by decide, by decide, rfl⟩

/-- C15, the code at the failing input: after the leading step of
`esp_spiffs_read(1, 6, dst)` on any flash (the device read succeeds),
`dst[0 .. 3)` holds `stk 4, stk 5, stk 6`, the three bytes that follow the
word `tmp` on the stack, whatever the word fetched into `tmp` is. -/
theorem read_leading_copies_past_tmp (flash : Nat → Byte) (ram stk : Nat → Byte) :
    (readLeading ⟨flash, fun _ => false, []⟩ 1 6 1000 ram stk).1 = true ∧
    (List.range 3).map (fun i =>
      (readLeading ⟨flash, fun _ => false, []⟩ 1 6 1000 ram stk).2.1 (add32 1000 i)) =
      [stk 4, stk 5, stk 6] :=
  ⟨rfl, rfl⟩

/-- C18, the code at the failing input: `esp_spiffs_read(1, 1, dst)` returns
`SPIFFS_OK` and stores at `dst[0]`, `dst[1]` and `dst[2]`, two bytes past the
one-byte destination. -/
theorem read_overruns_destination (ram stk : Nat → Byte) :
    (esp_spiffs_read scenarioBDevice 1 1 1000 ram stk).1 = SPIFFS_OK ∧
    (List.range 4).map (fun i =>
      (esp_spiffs_read scenarioBDevice 1 1 1000 ram stk).2.1 (add32 1000 i)) =
      [stk 4, stk 5, stk 6, ram 1003] :=
  ⟨rfl, rfl⟩

/-! ## Later claims on `esp_spiffs_write` -/

/-- C19, the code at the failing input: `esp_spiffs_write(0, 516, src)` from
the unaligned pointer `src = 2001` writes two chunks; the second, of 4 bytes
at flash address 512, is copied from `src + 2048 ..`, i.e. from the source
byte offsets 2048..2051, which lie outside `[0, 516)`; the claim places it at
offset 512. -/
theorem staging_reads_past_source (ram : Nat → Byte) :
    (esp_spiffs_write erasedDevice 0 516 2001 ram).1 = SPIFFS_OK ∧
    ((issued erasedDevice (esp_spiffs_write erasedDevice 0 516 2001 ram).2).map
      LogEntry.call).getLast? =
      some (DevCall.write 512 [ram (2001 + 2048), ram (2001 + 2049), ram (2001 + 2050),
        ram (2001 + 2051)]) :=
  ⟨rfl, rfl⟩

/-! ## `_write_r` -/

/-- What `_write_r` sends to the UART on the standard output: every `'\r'` of
the input is dropped, every `'\n'` is sent as `'\r' '\n'`, every other byte is
sent as it is. -/
theorem write_r_output (stdoutFile : Int) (SPIFFS_write : Int → (Nat → Byte) → Int → Int)
    (ptr : Nat → Byte) (len : Int) (uart : List Byte) :
    _write_r stdoutFile SPIFFS_write stdoutFile ptr len uart =
      (len, uart ++ (List.range len.toNat).flatMap (fun i =>
        if ptr i = CR then [] else if ptr i = LF then [CR, LF] else [ptr i])) := by
  unfold _write_r
  rw [if_neg (by simp)]
  congr 1
  induction len.toNat with
  | zero => simp
  | succ n ih =>
    rw [List.range_succ, List.foldl_append, List.flatMap_append, ih]
    simp only [List.foldl_cons, List.foldl_nil, List.flatMap_cons, List.flatMap_nil,
      List.append_nil]
    unfold putTranslated uart_putc
    split
    · simp
    · split
      · rename_i h; simp [h]
      · simp

/-- C20, the code at the failing input: for the buffer `'a' '\r' 'b' '\n'`
written to the standard output `_write_r` returns 4 and sends
`'a' 'b' '\r' '\n'`: the `'\r'` is dropped and the `'\n'` becomes
`'\r' '\n'`, where the claim has `'a' '\r' '\n' 'b'`. -/
theorem write_r_drops_cr_expands_lf (SPIFFS_write : Int → (Nat → Byte) → Int → Int) :
    _write_r 1 SPIFFS_write 1 crlfSample 4 [] = (4, [97, 98, 13, 10]) :=
  rfl

end EspSpiffs
